import Mathlib

/-!
# Verification of the dataset retrieval and statistics pipeline

Shallow embedding of the EDA core of the `geoapp` backend
(`backend/modules/exploratory_data_analysis/eda_manager.py`):

* `get_dataset_data_and_stats_combined` — the DataFetcher: resolve a dataset,
  fetch the requested columns, optionally apply a bounding-box filter,
  interleave the columns into one flat float32 buffer and compute per-column
  boundaries from the (filtered) data;
* `compute_histogram`, `compute_boxplot`, `compute_heatmap` — the
  StatisticsEngine.

Modelling conventions:

* A float cell is `Flt`: either `nan` or an exact rational value.  Claims under
  check are about selection, indexing, counting and exact small-number
  arithmetic, not about float rounding, so rationals stand in for IEEE values;
  NaN propagation and NaN-comparison semantics (any comparison with NaN is
  false) are modelled explicitly.
* Python exceptions caught by the surrounding `try/except` blocks are modelled
  by `Option`/explicit empty results: every code path that raises in Python is
  a path that produces the function's "caught" value here.
* DuckDB query results (`fetchnumpy`) are modelled as an association list from
  column name to a `RawColumn`, which is either a numeric-dtype array (floats,
  possibly NaN) or a text/object-dtype array whose entries may (`some q`) or
  may not (`none`) parse as numbers.
-/

set_option allowUnsafeReducibility true

attribute [semireducible] Rat.add Rat.mul Rat.inv Rat.sub Rat.ofScientific

namespace GeoApp

/-- A floating-point cell value: NaN or an exact (rational-modelled) number. -/
inductive Flt where
  | nan : Flt
  | val : ℚ → Flt
deriving DecidableEq, Repr

/-- `np.isnan` on one cell. -/
def Flt.isNaN : Flt → Bool
  | .nan => true
  | .val _ => false

/-- Elementwise `data >= c` against a scalar: false when the cell is NaN
    (IEEE comparison semantics, as numpy implements them). -/
def Flt.geQ : Flt → ℚ → Bool
  | .nan, _ => false
  | .val a, c => decide (c ≤ a)

/-- Elementwise `data <= c` against a scalar: false when the cell is NaN. -/
def Flt.leQ : Flt → ℚ → Bool
  | .nan, _ => false
  | .val a, c => decide (a ≤ c)

/-- The non-NaN values of a float column (`data[~np.isnan(data)]`),
    in order, as exact rationals. -/
def validVals (l : List Flt) : List ℚ :=
  l.filterMap fun f => match f with
    | .nan => none
    | .val q => some q

/-- `np.min` over a nonempty NaN-free array (default 0 for the empty case,
    which every use site guards against). -/
def listMinQ : List ℚ → ℚ
  | [] => 0
  | a :: rest => rest.foldl min a

/-- `np.max` over a nonempty NaN-free array. -/
def listMaxQ : List ℚ → ℚ
  | [] => 0
  | a :: rest => rest.foldl max a

/-- `np.mean` numerator: sum of a list of rationals. -/
def listSumQ (l : List ℚ) : ℚ :=
  l.foldr (· + ·) 0

/-- numpy boolean-mask selection `col[mask]`: keep the entries whose mask
    bit is true (mask and column are row-aligned). -/
def maskSelect {α : Type} (mask : List Bool) (col : List α) : List α :=
  ((mask.zip col).filter (fun p => p.1)).map (fun p => p.2)

/-- Every k-th element starting at the head, with an explicit fuel argument
    (structural recursion; the fuel is an upper bound on the list length, so
    it never runs out). -/
def takeStrideFuel {α : Type} (k : Nat) : Nat → List α → List α
  | _, [] => []
  | 0, _ :: _ => []
  | fuel + 1, a :: rest => a :: takeStrideFuel k fuel (rest.drop (k - 1))

/-- Every k-th element starting at the head: the recursion behind the
    numpy/Python strided slice. -/
def takeStride {α : Type} (k : Nat) (l : List α) : List α :=
  takeStrideFuel k l.length l

/-- The strided slice `buf[i::k]` used to de-interleave column `i` out of a
    `k`-column interleaved buffer. -/
def strideSlice {α : Type} (buf : List α) (k i : Nat) : List α :=
  takeStride k (buf.drop i)

/-- The interleaved flat buffer built by the strided assignments
    `flat_numpy[i::num_cols] = col_i`: position `r * K + i` holds row `r` of
    column `i` (row-major, column-minor order). -/
def interleave (colsData : List (List Flt)) (n : Nat) : List Flt :=
  (List.range n).flatMap fun r => colsData.map fun col => col.getD r .nan

/-- One fetched column as `fetchnumpy` returns it: a numeric-dtype array of
    floats (possibly NaN), or a text/object-dtype array whose entries either
    parse as a number (`some q`, e.g. the string "7") or do not (`none`). -/
inductive RawColumn where
  | numeric : List Flt → RawColumn
  | text : List (Option ℚ) → RawColumn
deriving DecidableEq, Repr

/-- Row count of a fetched column. -/
def RawColumn.length : RawColumn → Nat
  | .numeric v => v.length
  | .text v => v.length

/-- `np.issubdtype(col_data.dtype, np.number)`. -/
def RawColumn.isNumericDtype : RawColumn → Bool
  | .numeric _ => true
  | .text _ => false

/-- The float32 coercion applied when a column is written into the interleaved
    buffer: `col_data.astype(np.float32)` when it succeeds, otherwise
    `pd.to_numeric(col_data, errors=coerce)`.  Net effect in both paths:
    numeric columns pass through, text entries keep their parsed value when
    they parse and become NaN when they do not. -/
def RawColumn.coerce : RawColumn → List Flt
  | .numeric v => v
  | .text v => v.map fun o => match o with
      | some q => .val q
      | none => .nan

/-- The numeric float data of a column, or `none` for a text/object column,
    for which the elementwise float comparisons of the bounding-box mask
    raise `TypeError` (caught by the fetcher's exception handler). -/
def RawColumn.numData : RawColumn → Option (List Flt)
  | .numeric v => some v
  | .text _ => none

/-- `rows_data[col][mask]` applied to either kind of column. -/
def RawColumn.maskSel (mask : List Bool) : RawColumn → RawColumn
  | .numeric v => .numeric (maskSelect mask v)
  | .text v => .text (maskSelect mask v)

/-- A DuckDB table: ordered named columns (rectangular in any state the SQL
    engine can produce; theorems carry that as an explicit hypothesis). -/
structure Table where
  cols : List (String × RawColumn)
deriving DecidableEq, Repr

/-- Column lookup by name (a Python `dict` / `rows_data[name]` access). -/
def lookupCol (rows : List (String × RawColumn)) (name : String) : Option RawColumn :=
  (rows.find? fun p => p.1 == name).map fun p => p.2

/-- Per-column cached statistics (`DatasetColumnStats` rows / BoundaryIndex). -/
structure Boundary where
  min_value : ℚ
  max_value : ℚ
  valid_count : Nat
deriving DecidableEq, Repr

/-- A stored dataset: the backing DuckDB table plus the cached per-column
    statistics persisted at ingestion time (the BoundaryIndex). -/
structure DSet where
  table : Table
  cachedStats : List (String × Boundary)
deriving DecidableEq, Repr

/-- The backing store: dataset id → dataset. -/
structure Store where
  datasets : List (String × DSet)
deriving DecidableEq, Repr

/-- `session.get(models.Dataset, dataset_id)`. -/
def Store.find (s : Store) (did : String) : Option DSet :=
  (s.datasets.find? fun p => p.1 == did).map fun p => p.2

/-- Replace every dataset's cached BoundaryIndex, leaving the tables alone
    (used to state that the fetcher never reads the cache). -/
def Store.setCached (s : Store) (cs : List (String × Boundary)) : Store :=
  ⟨s.datasets.map fun p => (p.1, ⟨p.2.table, cs⟩)⟩

/-- `SELECT "c1", ..., "ck" FROM table` via `fetchnumpy`: the requested
    columns, in request order, keyed by name; `none` when some requested
    column does not exist (DuckDB binder error, caught by the handler). -/
def fetchCols (t : Table) : List String → Option (List (String × RawColumn))
  | [] => some []
  | c :: rest =>
    match lookupCol t.cols c, fetchCols t rest with
    | some rc, some tail => some ((c, rc) :: tail)
    | _, _ => none

/-- `len(rows_data[columns[0]])` — row count of the first fetched column. -/
def firstLen (rows : List (String × RawColumn)) : Nat :=
  match rows with
  | [] => 0
  | p :: _ => p.2.length

/-- Filter-column resolution: explicit `filter_columns` when it has at least
    two entries, else `columns[0], columns[1]` and `columns[2]` when present
    (`none` models the `IndexError` of `columns[1]` on a short list). -/
def resolveFilterCols (columns filterColumns : List String) :
    Option (String × String × Option String) :=
  if 2 ≤ filterColumns.length then
    some (filterColumns.getD 0 "", filterColumns.getD 1 "",
      if 3 ≤ filterColumns.length then some (filterColumns.getD 2 "") else none)
  else
    match columns with
    | c0 :: c1 :: rest => some (c0, c1, rest.head?)
    | _ => none

/-- The 2D part of the bounding-box mask:
    `(x >= x1) & (x <= x2) & (y >= y1) & (y <= y2)` elementwise. -/
def boxMask2 (xd yd : List Flt) (x1 x2 y1 y2 : ℚ) : List Bool :=
  (xd.zip yd).map fun p =>
    p.1.geQ x1 && p.1.leQ x2 && p.2.geQ y1 && p.2.leQ y2

/-- The 3D refinement `mask & (z >= z1) & (z <= z2)`. -/
def andMaskZ (m : List Bool) (zd : List Flt) (z1 z2 : ℚ) : List Bool :=
  (m.zip zd).map fun p => p.1 && p.2.geQ z1 && p.2.leQ z2

/-- The bounding-box filtering step of `get_dataset_data_and_stats_combined`
    (lines 74–107): active only for a 4- or 6-element box; resolves the filter
    columns, builds the boolean mask from them and applies the same mask to
    every fetched column.  `none` models a raised-and-caught exception
    (filter column absent from the fetched dict, or text-dtype filter column
    whose float comparison raises `TypeError`). -/
def applyBBox (columns filterColumns : List String) (bb : List ℚ)
    (rows : List (String × RawColumn)) : Option (List (String × RawColumn)) :=
  if bb.length = 4 ∨ bb.length = 6 then
    match resolveFilterCols columns filterColumns with
    | none => none
    | some (xc, yc, zc) =>
      match (lookupCol rows xc).bind RawColumn.numData,
            (lookupCol rows yc).bind RawColumn.numData with
      | some xd, some yd =>
        let mask0 := boxMask2 xd yd (bb.getD 0 0) (bb.getD 1 0) (bb.getD 2 0) (bb.getD 3 0)
        let maskFinal : Option (List Bool) :=
          if bb.length = 6 then
            match zc with
            | some zn =>
              if zn = "" then some mask0
              else
                match (lookupCol rows zn).bind RawColumn.numData with
                | some zd => some (andMaskZ mask0 zd (bb.getD 4 0) (bb.getD 5 0))
                | none => none
            | none => some mask0
          else some mask0
        match maskFinal with
        | some mask => some (rows.map fun p => (p.1, p.2.maskSel mask))
        | none => none
      | _, _ => none
  else
    some rows

/-- The boundary computation of `get_dataset_data_and_stats_combined`
    (lines 133–150): for each requested column, only when its dtype is
    numeric and it retains at least one non-NaN value, record
    `{min, max, count}` of the non-NaN values of the (already filtered)
    fetched data. -/
def computeBoundaries (columns : List String) (rows : List (String × RawColumn)) :
    List (String × Boundary) :=
  columns.filterMap fun c =>
    match lookupCol rows c with
    | some (.numeric v) =>
      let valid := validVals v
      if valid.length = 0 then none
      else some (c, ⟨listMinQ valid, listMaxQ valid, valid.length⟩)
    | _ => none

/-- Embedding of `EDAManager.get_dataset_data_and_stats_combined`
    (eda_manager.py, lines 38–154): resolve the dataset, fetch the
    requested columns, optionally bounding-box filter them in lock-step,
    interleave into one flat float32 buffer and compute boundaries from the
    fetched/filtered data.  Every caught exception path — dataset not found,
    empty column list (malformed SELECT), missing column, bad filter column —
    returns the same empty pair `([], [])`; no error value accompanies it. -/
def get_dataset_data_and_stats_combined (store : Store) (datasetId : String)
    (columns : List String) (boundingBox : List ℚ) (filterColumns : List String) :
    List Flt × List (String × Boundary) :=
  match store.find datasetId with
  | none => ([], [])
  | some ds =>
    if columns = [] then ([], [])
    else
      match fetchCols ds.table columns with
      | none => ([], [])
      | some rows =>
        if firstLen rows = 0 then ([], [])
        else
          match applyBBox columns filterColumns boundingBox rows with
          | none => ([], [])
          | some rows2 =>
            let numPoints := firstLen rows2
            if numPoints = 0 then ([], [])
            else
              (interleave (rows2.map fun p => p.2.coerce) numPoints,
               computeBoundaries columns rows2)

/-- Round half to even at two decimal places: the rounding of Python's
    `f"{x:.2f}"` on exactly representable values. -/
def round2 (x : ℚ) : Int :=
  let y := x * 100
  let f := ⌊y⌋
  let r := y - (f : ℚ)
  if r < 1/2 then f
  else if 1/2 < r then f + 1
  else if f % 2 = 0 then f else f + 1

/-- Two-digit zero-padded decimal rendering of `n < 100`. -/
def twoDigits (n : Nat) : String :=
  (if n < 10 then "0" else "") ++ toString n

/-- Python `f"{x:.2f}"` on a (rational-modelled) float. -/
def fmt2 (x : ℚ) : String :=
  let n := round2 x
  (if x < 0 then "-" else "") ++ toString (n.natAbs / 100) ++ "." ++ twoDigits (n.natAbs % 100)

/-- `np.histogram`'s outer edges for an explicit `range=(lo, hi)`: a
    degenerate range (`lo == hi`) is widened to `[lo - 0.5, hi + 0.5]`. -/
def outerEdges (lo hi : ℚ) : ℚ × ℚ :=
  if lo = hi then (lo - 1/2, hi + 1/2) else (lo, hi)

/-- The `numBins + 1` equally spaced edges `np.histogram` returns
    (numpy's `linspace(lo, hi, numBins + 1)`), exact in rationals. -/
def histEdges (lo hi : ℚ) (nbins : Nat) : List ℚ :=
  (List.range (nbins + 1)).map fun i : Nat => lo + (hi - lo) * (i : ℚ) / nbins

/-- The bin a value lands in under numpy's uniform-bin histogram:
    `floor((v - lo) * nbins / (hi - lo))`, with the last bin closed
    (values at the top edge land in bin `nbins - 1`). -/
def binIndex (lo hi : ℚ) (nbins : Nat) (v : ℚ) : Nat :=
  min (Int.toNat ⌊(v - lo) * nbins / (hi - lo)⌋) (nbins - 1)

/-- Per-bin counts of the in-range values. -/
def histCounts (lo hi : ℚ) (nbins : Nat) (vals : List ℚ) : List Nat :=
  (List.range nbins).map fun i =>
    vals.countP fun v => decide (lo ≤ v ∧ v ≤ hi) && decide (binIndex lo hi nbins v = i)

/-- The fields of the dict `compute_histogram` returns. -/
structure HistogramResult where
  bin_ranges : List String
  bin_counts : List Nat
  bin_edges : List ℚ
  num_bins : Nat
  min_value : ℚ
  max_value : ℚ
  total_count : Nat
deriving DecidableEq, Repr

/-- Embedding of `EDAManager.compute_histogram` (lines 156–201): drop NaNs,
    bin the survivors over `range=(min, max)` with `num_bins` equal-width
    bins, and return edges, counts and formatted bin labels.  `none` is the
    empty dict `{}` (empty input, all-NaN input, or the caught `ValueError`
    numpy raises for `bins=0`). -/
def compute_histogram (data : List Flt) (numBins : Nat) : Option HistogramResult :=
  if data.length = 0 then none
  else
    let vals := validVals data
    if vals.length = 0 then none
    else if numBins = 0 then none
    else
      let minV := listMinQ vals
      let maxV := listMaxQ vals
      let lohi := outerEdges minV maxV
      let edges := histEdges lohi.1 lohi.2 numBins
      let counts := histCounts lohi.1 lohi.2 numBins vals
      let ranges := (List.range numBins).map fun i =>
        fmt2 (edges.getD i 0) ++ " - " ++ fmt2 (edges.getD (i + 1) 0)
      some ⟨ranges, counts, edges, numBins, minV, maxV, vals.length⟩

/-- `np.percentile(data, p)` with the default linear-interpolation method:
    with `s` the sorted data and `h = (n - 1) * p / 100`, the result is
    `s[⌊h⌋] + (h - ⌊h⌋) * (s[⌊h⌋ + 1] - s[⌊h⌋])`. -/
def percentileLin (vals : List ℚ) (p : ℚ) : ℚ :=
  let s := List.insertionSort (· ≤ ·) vals
  let h : ℚ := ((s.length : ℚ) - 1) * p / 100
  let lo := (⌊h⌋).toNat
  let base := s.getD lo 0
  base + (h - (⌊h⌋ : ℚ)) * (s.getD (lo + 1) base - base)

/-- The fields of the dict `compute_boxplot` returns. -/
structure BoxPlotResult where
  column_name : String
  min : ℚ
  q1 : ℚ
  median : ℚ
  q3 : ℚ
  max : ℚ
  mean : ℚ
  outliers : List ℚ
  lower_fence : ℚ
  upper_fence : ℚ
  iqr : ℚ
  total_count : Nat
deriving DecidableEq, Repr

/-- Embedding of `EDAManager.compute_boxplot` (lines 203–259): drop NaNs,
    quartiles by linear-interpolation percentile, IQR fences, outliers
    strictly outside the fences, reported min/max from the non-outlier
    subset when nonempty (global min/max otherwise), mean over all values.
    `none` is the empty dict `{}`. -/
def compute_boxplot (columnName : String) (data : List Flt) : Option BoxPlotResult :=
  if data.length = 0 then none
  else
    let vals := validVals data
    if vals.length = 0 then none
    else
      let q1 := percentileLin vals 25
      let med := percentileLin vals 50
      let q3 := percentileLin vals 75
      let iqr := q3 - q1
      let lf := q1 - 3/2 * iqr
      let uf := q3 + 3/2 * iqr
      let outliers := vals.filter fun v => decide (v < lf ∨ uf < v)
      let nonOutliers := vals.filter fun v => decide (lf ≤ v ∧ v ≤ uf)
      let minV := if nonOutliers.length = 0 then listMinQ vals else listMinQ nonOutliers
      let maxV := if nonOutliers.length = 0 then listMaxQ vals else listMaxQ nonOutliers
      some ⟨columnName, minV, q1, med, q3, maxV, listSumQ vals / vals.length,
            outliers, lf, uf, iqr, vals.length⟩

/-- One occupied heatmap grid cell. -/
structure HeatCell where
  x_index : Nat
  y_index : Nat
  avg_value : ℚ
  count : Nat
deriving DecidableEq, Repr

/-- The fields of the dict `compute_heatmap` returns. -/
structure HeatmapResult where
  cells : List HeatCell
  grid_size_x : Nat
  grid_size_y : Nat
  min_value : ℚ
  max_value : ℚ
  x_bin_size : ℚ
  y_bin_size : ℚ
  min_x : ℚ
  max_x : ℚ
  min_y : ℚ
  max_y : ℚ
  x_column : String
  y_column : String
  value_column : String
deriving DecidableEq, Repr

/-- The row-aligned NaN drop of `compute_heatmap`
    (`mask = ~(isnan(x) | isnan(y) | isnan(value))`): a zipped row survives
    exactly when none of its three entries is NaN. -/
def validTriple : Flt × Flt × Flt → Option (ℚ × ℚ × ℚ)
  | (.val x, (.val y, .val v)) => some (x, y, v)
  | _ => none

/-- `np.floor((coord - lo) / binSize).astype(int)` followed by
    `np.clip(·, 0, g - 1)`.  When `binSize = 0` every coordinate equals `lo`
    (the axis range is zero), the division is IEEE `0.0 / 0.0 = NaN`, numpy's
    NaN→int64 cast yields `INT64_MIN`, and the clip maps that to 0 — so the
    zero-range branch returns bin 0. -/
def binClip (g : Nat) (lo binSize c : ℚ) : Nat :=
  if binSize = 0 then 0
  else (max 0 (min (⌊(c - lo) / binSize⌋) ((g : Int) - 1))).toNat

/-- One step of the dict-accumulation loop of `compute_heatmap`
    (lines 308–318): bump the running sum and count of key `k`, inserting the
    key at the end on first sight (Python dicts iterate in insertion order). -/
def bumpCell (acc : List ((Nat × Nat) × ℚ × Nat)) (k : Nat × Nat) (v : ℚ) :
    List ((Nat × Nat) × ℚ × Nat) :=
  match acc with
  | [] => [(k, v, 1)]
  | e :: rest =>
    if e.1 = k then (e.1, e.2.1 + v, e.2.2 + 1) :: rest
    else e :: bumpCell rest k v

/-- The whole accumulation loop over the binned points. -/
def aggregateCells (pts : List ((Nat × Nat) × ℚ)) : List ((Nat × Nat) × ℚ × Nat) :=
  pts.foldl (fun acc p => bumpCell acc p.1 p.2) []

/-- Embedding of `EDAManager.compute_heatmap` (lines 261–358): drop rows
    where any of x/y/value is NaN (row-aligned), compute per-axis bounds and
    bin sizes, clamp per-point bin indices, aggregate sums/counts per
    occupied cell in insertion order, and report per-cell averages plus the
    global min/max of those averages.  `none` is the empty dict `{}` (empty
    input, nothing left after the NaN drop, or the caught `ZeroDivisionError`
    of `range / 0` for `grid_size = 0`). -/
def compute_heatmap (xData yData valueData : List Flt)
    (xColumn yColumn valueColumn : String) (gridSize : Nat) : Option HeatmapResult :=
  if xData.length = 0 ∨ yData.length = 0 ∨ valueData.length = 0 then none
  else
    let valid := (xData.zip (yData.zip valueData)).filterMap validTriple
    if valid.length = 0 then none
    else if gridSize = 0 then none
    else
      let xs := valid.map fun t => t.1
      let ys := valid.map fun t => t.2.1
      let minX := listMinQ xs
      let maxX := listMaxQ xs
      let minY := listMinQ ys
      let maxY := listMaxQ ys
      let xbs := (maxX - minX) / gridSize
      let ybs := (maxY - minY) / gridSize
      let keyed := valid.map fun t =>
        ((binClip gridSize minX xbs t.1, binClip gridSize minY ybs t.2.1), t.2.2)
      let agg := aggregateCells keyed
      let cells := agg.map fun e => HeatCell.mk e.1.1 e.1.2 (e.2.1 / e.2.2) e.2.2
      let avgs := cells.map fun c => c.avg_value
      some ⟨cells, gridSize, gridSize,
            (if avgs.length = 0 then 0 else listMinQ avgs),
            (if avgs.length = 0 then 0 else listMaxQ avgs),
            xbs, ybs, minX, maxX, minY, maxY, xColumn, yColumn, valueColumn⟩

/-- First-match lookup in the heatmap accumulator (the dict read). -/
def accFind (acc : List ((Nat × Nat) × ℚ × Nat)) (k : Nat × Nat) : Option (ℚ × Nat) :=
  (acc.find? fun e => e.1 = k).map fun e => e.2

/-- The successful-path value of `compute_heatmap` on NaN-free inputs of
    equal nonzero length: the record built from the zipped points (after the
    NaN drop, which removes nothing here). -/
def heatmapOn (xs ys vs : List ℚ) (xColumn yColumn valueColumn : String)
    (gridSize : Nat) : HeatmapResult :=
  let minX := listMinQ xs
  let maxX := listMaxQ xs
  let minY := listMinQ ys
  let maxY := listMaxQ ys
  let xbs := (maxX - minX) / gridSize
  let ybs := (maxY - minY) / gridSize
  let keyed := (xs.zip (ys.zip vs)).map fun t =>
    ((binClip gridSize minX xbs t.1, binClip gridSize minY ybs t.2.1), t.2.2)
  let agg := aggregateCells keyed
  let cells := agg.map fun e => HeatCell.mk e.1.1 e.1.2 (e.2.1 / e.2.2) e.2.2
  let avgs := cells.map fun c => c.avg_value
  ⟨cells, gridSize, gridSize,
   (if avgs.length = 0 then 0 else listMinQ avgs),
   (if avgs.length = 0 then 0 else listMaxQ avgs),
   xbs, ybs, minX, maxX, minY, maxY, xColumn, yColumn, valueColumn⟩

/-! ## Helper lemmas -/

theorem getD_tail {α : Type} (col : List α) (r : Nat) (d : α) :
    col.tail.getD r d = col.getD (r + 1) d := by
  cases col <;> simp

theorem takeStrideFuel_eq {α : Type} (k : Nat) :
    ∀ (fuel fuel' : Nat) (l : List α), l.length ≤ fuel → l.length ≤ fuel' →
      takeStrideFuel k fuel l = takeStrideFuel k fuel' l := by
  intro fuel
  induction fuel with
  | zero =>
    intro fuel' l h _
    cases l with
    | nil => cases fuel' <;> rfl
    | cons a rest => simp at h
  | succ fuel ih =>
    intro fuel' l h h'
    cases l with
    | nil => cases fuel' <;> rfl
    | cons a rest =>
      cases fuel' with
      | zero => simp at h'
      | succ fuel' =>
        unfold takeStrideFuel
        congr 1
        apply ih
        · calc (rest.drop (k - 1)).length ≤ rest.length := by
                rw [List.length_drop]; omega
            _ ≤ fuel := by simpa using h
        · calc (rest.drop (k - 1)).length ≤ rest.length := by
                rw [List.length_drop]; omega
            _ ≤ fuel' := by simpa using h'

theorem takeStride_cons {α : Type} (k : Nat) (a : α) (rest : List α) :
    takeStride k (a :: rest) = a :: takeStride k (rest.drop (k - 1)) := by
  show takeStrideFuel k (rest.length + 1) (a :: rest) = _
  unfold takeStrideFuel
  congr 1
  apply takeStrideFuel_eq
  · rw [List.length_drop]; omega
  · exact le_refl _

theorem drop_append_le {α : Type} (l1 l2 : List α) (m : Nat) (h : m ≤ l1.length) :
    (l1 ++ l2).drop m = l1.drop m ++ l2 := by
  induction l1 generalizing m with
  | nil =>
    simp at h
    simp [h]
  | cons a t ih =>
    cases m with
    | zero => simp
    | succ m =>
      simp only [List.cons_append, List.drop_succ_cons]
      exact ih m (by simpa using h)

theorem drop_append_ge {α : Type} (l1 l2 : List α) (m : Nat) (h : l1.length ≤ m) :
    (l1 ++ l2).drop m = l2.drop (m - l1.length) := by
  induction l1 generalizing m with
  | nil => simp
  | cons a t ih =>
    cases m with
    | zero => simp at h
    | succ m =>
      simp only [List.cons_append, List.drop_succ_cons, List.length_cons]
      rw [ih m (by simpa using h)]
      simp [Nat.succ_sub_succ]

theorem interleave_zero (cols : List (List Flt)) : interleave cols 0 = [] := by
  simp [interleave]

theorem interleave_succ (cols : List (List Flt)) (n : Nat) :
    interleave cols (n + 1) =
      (cols.map fun col => col.getD 0 .nan) ++ interleave (cols.map List.tail) n := by
  unfold interleave
  rw [List.range_succ_eq_map, List.flatMap_cons, List.flatMap_map]
  congr 1
  refine congrArg (List.flatMap (List.range n)) (funext fun r => ?_)
  rw [List.map_map]
  exact List.map_congr_left fun c _ => (getD_tail c r .nan).symm

/-- De-interleaving with stride `K = cols.length` recovers column `i`. -/
theorem strideSlice_interleave (n : Nat) :
    ∀ (cols : List (List Flt)) (i : Nat), (∀ c ∈ cols, c.length = n) → i < cols.length →
      strideSlice (interleave cols n) cols.length i = cols.getD i [] := by
  induction n with
  | zero =>
    intro cols i hlen hi
    have hmem : cols.getD i [] ∈ cols := by
      rw [List.getD_eq_getElem?_getD, List.getElem?_eq_getElem hi]
      exact List.getElem_mem hi
    have h0 : cols.getD i [] = [] := List.length_eq_zero.mp (hlen _ hmem)
    rw [interleave_zero, h0]
    simp [strideSlice, takeStride, takeStrideFuel]
  | succ n ih =>
    intro cols i hlen hi
    have hcolget : cols.getD i [] = cols[i] := by
      rw [List.getD_eq_getElem?_getD, List.getElem?_eq_getElem hi]
      rfl
    have hilen : (cols[i]).length = n + 1 := hlen _ (List.getElem_mem hi)
    obtain ⟨a, t, hat⟩ : ∃ a t, cols[i] = a :: t := by
      cases hc : cols[i] with
      | nil => rw [hc] at hilen; simp at hilen
      | cons a t => exact ⟨a, t, rfl⟩
    rw [interleave_succ, strideSlice, hcolget, hat]
    have hi' : i < (cols.map fun col => col.getD 0 Flt.nan).length := by
      simpa using hi
    rw [drop_append_le _ _ i (by simpa using Nat.le_of_lt hi)]
    rw [List.drop_eq_getElem_cons hi', List.cons_append, takeStride_cons]
    have hdlen : ((cols.map fun col => col.getD 0 Flt.nan).drop (i + 1)).length
        = cols.length - (i + 1) := by simp
    rw [drop_append_ge _ _ _ (by rw [hdlen]; omega), hdlen]
    have harith : cols.length - 1 - (cols.length - (i + 1)) = i := by omega
    rw [harith]
    have hmap : cols.length = (cols.map List.tail).length := by simp
    have hlen2 : ∀ c ∈ cols.map List.tail, c.length = n := by
      intro c hc
      obtain ⟨c0, hc0, rfl⟩ := List.mem_map.mp hc
      have hc0l := hlen c0 hc0
      simp [hc0l]
    have hi2 : i < (cols.map List.tail).length := by rw [← hmap]; exact hi
    have hihs := ih (cols.map List.tail) i hlen2 hi2
    rw [strideSlice] at hihs
    rw [hmap, hihs]
    congr 1
    · rw [List.getElem_map]
      rw [hat]
      rfl
    · rw [List.getD_eq_getElem?_getD, List.getElem?_eq_getElem hi2]
      simp only [List.getElem_map, Option.getD_some]
      rw [hat]
      rfl

theorem foldl_min_le_init (l : List ℚ) (a : ℚ) : l.foldl min a ≤ a := by
  induction l generalizing a with
  | nil => simp
  | cons b t ih => exact le_trans (ih (min a b)) (min_le_left a b)

theorem foldl_min_le_mem (l : List ℚ) (a x : ℚ) (hx : x ∈ l) : l.foldl min a ≤ x := by
  induction l generalizing a with
  | nil => simp at hx
  | cons b t ih =>
    rcases List.mem_cons.mp hx with h | h
    · subst h
      exact le_trans (foldl_min_le_init t (min a x)) (min_le_right a x)
    · exact ih (min a b) h

theorem foldl_min_mem (l : List ℚ) (a : ℚ) : l.foldl min a = a ∨ l.foldl min a ∈ l := by
  induction l generalizing a with
  | nil => left; rfl
  | cons b t ih =>
    rcases ih (min a b) with h | h
    · rcases min_cases a b with ⟨he, _⟩ | ⟨he, _⟩
      · left; rw [List.foldl_cons, h, he]
      · right; rw [List.foldl_cons, h, he]; exact List.mem_cons_self b t
    · right; exact List.mem_cons_of_mem b h

theorem foldl_max_init_le (l : List ℚ) (a : ℚ) : a ≤ l.foldl max a := by
  induction l generalizing a with
  | nil => simp
  | cons b t ih => exact le_trans (le_max_left a b) (ih (max a b))

theorem foldl_max_mem_le (l : List ℚ) (a x : ℚ) (hx : x ∈ l) : x ≤ l.foldl max a := by
  induction l generalizing a with
  | nil => simp at hx
  | cons b t ih =>
    rcases List.mem_cons.mp hx with h | h
    · subst h
      exact le_trans (le_max_right a x) (foldl_max_init_le t (max a x))
    · exact ih (max a b) h

theorem foldl_max_mem (l : List ℚ) (a : ℚ) : l.foldl max a = a ∨ l.foldl max a ∈ l := by
  induction l generalizing a with
  | nil => left; rfl
  | cons b t ih =>
    rcases ih (max a b) with h | h
    · rcases max_cases a b with ⟨he, _⟩ | ⟨he, _⟩
      · left; rw [List.foldl_cons, h, he]
      · right; rw [List.foldl_cons, h, he]; exact List.mem_cons_self b t
    · right; exact List.mem_cons_of_mem b h

theorem listMinQ_le (l : List ℚ) (x : ℚ) (hx : x ∈ l) : listMinQ l ≤ x := by
  cases l with
  | nil => simp at hx
  | cons a t =>
    rcases List.mem_cons.mp hx with h | h
    · subst h; exact foldl_min_le_init t x
    · exact foldl_min_le_mem t a x h

theorem le_listMaxQ (l : List ℚ) (x : ℚ) (hx : x ∈ l) : x ≤ listMaxQ l := by
  cases l with
  | nil => simp at hx
  | cons a t =>
    rcases List.mem_cons.mp hx with h | h
    · subst h; exact foldl_max_init_le t x
    · exact foldl_max_mem_le t a x h

theorem listMinQ_mem (l : List ℚ) (hl : l ≠ []) : listMinQ l ∈ l := by
  cases l with
  | nil => exact absurd rfl hl
  | cons a t =>
    rcases foldl_min_mem t a with h | h
    · rw [listMinQ, h]; exact List.mem_cons_self a t
    · exact List.mem_cons_of_mem a h

theorem listMaxQ_mem (l : List ℚ) (hl : l ≠ []) : listMaxQ l ∈ l := by
  cases l with
  | nil => exact absurd rfl hl
  | cons a t =>
    rcases foldl_max_mem t a with h | h
    · rw [listMaxQ, h]; exact List.mem_cons_self a t
    · exact List.mem_cons_of_mem a h

theorem listMinQ_le_listMaxQ (l : List ℚ) (hl : l ≠ []) : listMinQ l ≤ listMaxQ l :=
  listMinQ_le l (listMaxQ l) (listMaxQ_mem l hl)

theorem maskSelect_cons {α : Type} (b : Bool) (m : List Bool) (a : α) (t : List α) :
    maskSelect (b :: m) (a :: t) = if b then a :: maskSelect m t else maskSelect m t := by
  cases b <;> simp [maskSelect]

theorem maskSelect_length {α : Type} (mask : List Bool) (col : List α)
    (h : col.length = mask.length) :
    (maskSelect mask col).length = mask.count true := by
  induction mask generalizing col with
  | nil => simp [maskSelect]
  | cons b m ih =>
    cases col with
    | nil => simp at h
    | cons a t =>
      have ht : t.length = m.length := by simpa using h
      rw [maskSelect_cons, List.count_cons]
      cases b with
      | true => simp [ih t ht]
      | false => simp [ih t ht]

theorem boxMask2_length (xd yd : List Flt) (x1 x2 y1 y2 : ℚ)
    (hlen : yd.length = xd.length) :
    (boxMask2 xd yd x1 x2 y1 y2).length = xd.length := by
  simp [boxMask2, hlen]

theorem boxMask2_getD (xd yd : List Flt) (x1 x2 y1 y2 : ℚ) (r : Nat)
    (hr : r < xd.length) (hlen : yd.length = xd.length) :
    (boxMask2 xd yd x1 x2 y1 y2).getD r false =
      ((xd.getD r .nan).geQ x1 && (xd.getD r .nan).leQ x2 &&
       (yd.getD r .nan).geQ y1 && (yd.getD r .nan).leQ y2) := by
  have hzlen : (xd.zip yd).length = xd.length := by simp [hlen]
  have hrz : r < (xd.zip yd).length := by rw [hzlen]; exact hr
  have hrm : r < (boxMask2 xd yd x1 x2 y1 y2).length := by
    rw [boxMask2_length xd yd x1 x2 y1 y2 hlen]; exact hr
  have hry : r < yd.length := by rw [hlen]; exact hr
  rw [List.getD_eq_getElem?_getD, List.getElem?_eq_getElem hrm]
  rw [List.getD_eq_getElem?_getD, List.getElem?_eq_getElem hr]
  rw [List.getD_eq_getElem?_getD, List.getElem?_eq_getElem hry]
  simp only [boxMask2, List.getElem_map, List.getElem_zip, Option.getD_some]

theorem andMaskZ_length (m : List Bool) (zd : List Flt) (z1 z2 : ℚ)
    (hlen : zd.length = m.length) :
    (andMaskZ m zd z1 z2).length = m.length := by
  simp [andMaskZ, hlen]

theorem andMaskZ_getD (m : List Bool) (zd : List Flt) (z1 z2 : ℚ) (r : Nat)
    (hr : r < m.length) (hlen : zd.length = m.length) :
    (andMaskZ m zd z1 z2).getD r false =
      (m.getD r false && (zd.getD r .nan).geQ z1 && (zd.getD r .nan).leQ z2) := by
  have hrz : r < zd.length := by rw [hlen]; exact hr
  have hrm : r < (andMaskZ m zd z1 z2).length := by
    rw [andMaskZ_length m zd z1 z2 hlen]; exact hr
  rw [List.getD_eq_getElem?_getD, List.getElem?_eq_getElem hrm]
  rw [List.getD_eq_getElem?_getD, List.getElem?_eq_getElem hr]
  rw [List.getD_eq_getElem?_getD, List.getElem?_eq_getElem hrz]
  simp only [andMaskZ, List.getElem_map, List.getElem_zip, Option.getD_some]

theorem RawColumn.maskSel_length (mask : List Bool) (c : RawColumn)
    (h : c.length = mask.length) :
    (c.maskSel mask).length = mask.count true := by
  cases c with
  | numeric v => exact maskSelect_length mask v h
  | text v => exact maskSelect_length mask v h

/-! ## Claim theorems -/

/-- **C2** — For every N-row, K-column matrix of floats, interleaving the
    columns into one flat buffer in row-major order and then de-interleaving
    column `i` as the strided slice `buffer[i::K]` recovers each original
    column exactly, for every `i < K`. -/
theorem claim_C2_interleave_roundtrip (cols : List (List Flt)) (n i : Nat)
    (hlen : ∀ c ∈ cols, c.length = n) (hi : i < cols.length) :
    strideSlice (interleave cols n) cols.length i = cols.getD i [] :=
  strideSlice_interleave n cols i hlen hi

/-- Witness for C2: a concrete 2×3 matrix, middle column recovered. -/
theorem claim_C2_witness :
    (∀ c ∈ [[Flt.val 1, Flt.val 2], [Flt.val 10, Flt.val 20], [Flt.val 100, Flt.val 200]],
        c.length = 2)
    ∧ strideSlice
        (interleave [[Flt.val 1, Flt.val 2], [Flt.val 10, Flt.val 20], [Flt.val 100, Flt.val 200]] 2)
        3 1 = [Flt.val 10, Flt.val 20] := by
  refine ⟨by decide, ?_⟩
  have h := claim_C2_interleave_roundtrip
    [[Flt.val 1, Flt.val 2], [Flt.val 10, Flt.val 20], [Flt.val 100, Flt.val 200]] 2 1
    (by decide) (by decide)
  simpa using h

/-- **C1** — For every fetch with a bounding box `[x1,x2,y1,y2]` (or
    `[x1,x2,y1,y2,z1,z2]` with a z filter column present), the retained rows
    are exactly those whose filter-column values satisfy `x1 <= x <= x2` and
    `y1 <= y <= y2` (and `z1 <= z <= z2` in the 3D case), and the same boolean
    row mask is applied to every requested column, so every filtered column
    has identical length and no column is filtered independently. -/
theorem claim_C1_bbox_mask_lockstep
    (columns filterColumns : List String) (rows : List (String × RawColumn))
    (xc yc : String) (zc : Option String) (xd yd : List Flt) (n : Nat)
    (hres : resolveFilterCols columns filterColumns = some (xc, yc, zc))
    (hx : (lookupCol rows xc).bind RawColumn.numData = some xd)
    (hy : (lookupCol rows yc).bind RawColumn.numData = some yd)
    (hxd : xd.length = n) (hyd : yd.length = n)
    (hrect : ∀ p ∈ rows, p.2.length = n) :
    (∀ x1 x2 y1 y2 : ℚ,
      applyBBox columns filterColumns [x1, x2, y1, y2] rows
        = some (rows.map fun p => (p.1, p.2.maskSel (boxMask2 xd yd x1 x2 y1 y2)))
      ∧ (∀ r, r < n → (boxMask2 xd yd x1 x2 y1 y2).getD r false =
          ((xd.getD r .nan).geQ x1 && (xd.getD r .nan).leQ x2 &&
           (yd.getD r .nan).geQ y1 && (yd.getD r .nan).leQ y2))
      ∧ (∀ p ∈ rows, (p.2.maskSel (boxMask2 xd yd x1 x2 y1 y2)).length
          = (boxMask2 xd yd x1 x2 y1 y2).count true))
    ∧
    (∀ (zn : String) (zd : List Flt) (x1 x2 y1 y2 z1 z2 : ℚ),
      zc = some zn → zn ≠ "" →
      (lookupCol rows zn).bind RawColumn.numData = some zd → zd.length = n →
      applyBBox columns filterColumns [x1, x2, y1, y2, z1, z2] rows
        = some (rows.map fun p =>
            (p.1, p.2.maskSel (andMaskZ (boxMask2 xd yd x1 x2 y1 y2) zd z1 z2)))
      ∧ (∀ r, r < n →
          (andMaskZ (boxMask2 xd yd x1 x2 y1 y2) zd z1 z2).getD r false =
          ((xd.getD r .nan).geQ x1 && (xd.getD r .nan).leQ x2 &&
           (yd.getD r .nan).geQ y1 && (yd.getD r .nan).leQ y2 &&
           (zd.getD r .nan).geQ z1 && (zd.getD r .nan).leQ z2))
      ∧ (∀ p ∈ rows, (p.2.maskSel (andMaskZ (boxMask2 xd yd x1 x2 y1 y2) zd z1 z2)).length
          = (andMaskZ (boxMask2 xd yd x1 x2 y1 y2) zd z1 z2).count true)) := by
  have hyx : yd.length = xd.length := by rw [hxd, hyd]
  have hmask2len : ∀ x1 x2 y1 y2 : ℚ, (boxMask2 xd yd x1 x2 y1 y2).length = n := by
    intro x1 x2 y1 y2
    rw [boxMask2_length xd yd x1 x2 y1 y2 hyx, hxd]
  constructor
  · intro x1 x2 y1 y2
    refine ⟨?_, ?_, ?_⟩
    · unfold applyBBox
      rw [if_pos (by simp), hres]
      dsimp only
      rw [hx, hy]
      simp
    · intro r hr
      exact boxMask2_getD xd yd x1 x2 y1 y2 r (by rw [hxd]; exact hr) hyx
    · intro p hp
      exact RawColumn.maskSel_length _ _ (by rw [hrect p hp, hmask2len])
  · intro zn zd x1 x2 y1 y2 z1 z2 hzc hzn hz hzd
    have hzm : zd.length = (boxMask2 xd yd x1 x2 y1 y2).length := by
      rw [hmask2len, hzd]
    refine ⟨?_, ?_, ?_⟩
    · unfold applyBBox
      rw [if_pos (by simp), hres]
      dsimp only
      rw [hx, hy]
      dsimp only
      rw [if_pos (by simp), hzc]
      dsimp only
      rw [if_neg hzn, hz]
      simp
    · intro r hr
      rw [andMaskZ_getD _ zd z1 z2 r (by rw [hmask2len]; exact hr) hzm]
      rw [boxMask2_getD xd yd x1 x2 y1 y2 r (by rw [hxd]; exact hr) hyx]
    · intro p hp
      refine RawColumn.maskSel_length _ _ ?_
      rw [hrect p hp, andMaskZ_length _ _ _ _ hzm, hmask2len]

/-- Witness for C1: the spec's 4-row dataset with box `[0.5, 2.5, 0.5, 2.5]`
    keeps exactly rows 2 and 3 of all three columns. -/
theorem claim_C1_witness :
    resolveFilterCols ["x", "y", "z"] [] = some ("x", "y", some "z")
    ∧ applyBBox ["x", "y", "z"] [] [1/2, 5/2, 1/2, 5/2]
        [("x", RawColumn.numeric [Flt.val 0, Flt.val 1, Flt.val 2, Flt.val 3]),
         ("y", RawColumn.numeric [Flt.val 0, Flt.val 1, Flt.val 2, Flt.val 3]),
         ("z", RawColumn.numeric [Flt.val 10, Flt.val 20, Flt.val 30, Flt.val 40])]
      = some [("x", RawColumn.numeric [Flt.val 1, Flt.val 2]),
              ("y", RawColumn.numeric [Flt.val 1, Flt.val 2]),
              ("z", RawColumn.numeric [Flt.val 20, Flt.val 30])] := by
  refine ⟨by decide, ?_⟩
  have h := (claim_C1_bbox_mask_lockstep ["x", "y", "z"] []
      [("x", RawColumn.numeric [Flt.val 0, Flt.val 1, Flt.val 2, Flt.val 3]),
       ("y", RawColumn.numeric [Flt.val 0, Flt.val 1, Flt.val 2, Flt.val 3]),
       ("z", RawColumn.numeric [Flt.val 10, Flt.val 20, Flt.val 30, Flt.val 40])]
      "x" "y" (some "z")
      [Flt.val 0, Flt.val 1, Flt.val 2, Flt.val 3]
      [Flt.val 0, Flt.val 1, Flt.val 2, Flt.val 3] 4
      (by decide) (by decide) (by decide) (by decide) (by decide) (by decide)).1
      (1/2) (5/2) (1/2) (5/2)
  rw [h.1]
  decide

theorem fetchCols_none (t : Table) (columns : List String)
    (h : ∃ c ∈ columns, lookupCol t.cols c = none) :
    fetchCols t columns = none := by
  induction columns with
  | nil => simp at h
  | cons c0 rest ih =>
    obtain ⟨c, hc, hnone⟩ := h
    rcases List.mem_cons.mp hc with h0 | h0
    · subst h0
      unfold fetchCols
      rw [hnone]
    · unfold fetchCols
      rw [ih ⟨c, h0, hnone⟩]
      cases lookupCol t.cols c0 <;> rfl

theorem validVals_eq_nil (data : List Flt) (h : ∀ f ∈ data, f.isNaN = true) :
    validVals data = [] := by
  rw [validVals, List.filterMap_eq_nil]
  intro f hf
  have := h f hf
  cases f with
  | nan => rfl
  | val q => simp [Flt.isNaN] at this

/-- **C7 (counterexample)** — The claim says a fetch whose datasetId does not
    resolve returns an empty result *together with a NotFound error value
    distinguishing it from a successful empty fetch*.  In the code the
    not-found branch returns the bare pair `(empty array, empty dict)`, the
    very same value a successful fetch of an existing zero-row table returns:
    no error value exists in the return type, so the two are
    indistinguishable. -/
theorem claim_C7_counterexample :
    get_dataset_data_and_stats_combined ⟨[]⟩ "d" ["x"] [] []
      = get_dataset_data_and_stats_combined
          ⟨[("d", ⟨⟨[("x", RawColumn.numeric [])]⟩, []⟩)]⟩ "d" ["x"] [] []
    ∧ get_dataset_data_and_stats_combined ⟨[]⟩ "d" ["x"] [] [] = ([], []) := by
  constructor <;> decide

/-- **C7 (amended)** — A fetch whose datasetId does not resolve, and likewise
    a fetch hitting a store-level failure (a requested column that does not
    exist), returns the empty FetchResult `([], [])` with no accompanying
    error value; the failure is logged only, and is indistinguishable to the
    caller from a successful empty fetch. -/
theorem claim_C7_empty_on_failure (store : Store) (datasetId : String)
    (columns : List String) (bb : List ℚ) (fcols : List String) :
    (store.find datasetId = none →
      get_dataset_data_and_stats_combined store datasetId columns bb fcols = ([], []))
    ∧ (∀ ds, store.find datasetId = some ds →
        (∃ c ∈ columns, lookupCol ds.table.cols c = none) →
        get_dataset_data_and_stats_combined store datasetId columns bb fcols = ([], [])) := by
  constructor
  · intro h
    unfold get_dataset_data_and_stats_combined
    rw [h]
  · intro ds hds hmiss
    unfold get_dataset_data_and_stats_combined
    rw [hds]
    dsimp only
    by_cases hc : columns = []
    · rw [if_pos hc]
    · rw [if_neg hc, fetchCols_none ds.table columns hmiss]

/-- Witness for C7's amended theorem: a store holding only dataset "other"
    fetched with id "d", and a store whose table lacks the requested column. -/
theorem claim_C7_witness :
    (Store.find ⟨[("other", ⟨⟨[]⟩, []⟩)]⟩ "d" = none
      ∧ get_dataset_data_and_stats_combined ⟨[("other", ⟨⟨[]⟩, []⟩)]⟩ "d" ["x"] [] []
          = ([], []))
    ∧ (Store.find ⟨[("d", ⟨⟨[("y", RawColumn.numeric [Flt.val 1])]⟩, []⟩)]⟩ "d"
          = some ⟨⟨[("y", RawColumn.numeric [Flt.val 1])]⟩, []⟩
      ∧ get_dataset_data_and_stats_combined
          ⟨[("d", ⟨⟨[("y", RawColumn.numeric [Flt.val 1])]⟩, []⟩)]⟩ "d" ["x"] [] []
          = ([], [])) := by
  refine ⟨⟨by decide, ?_⟩, ⟨by decide, ?_⟩⟩
  · exact (claim_C7_empty_on_failure ⟨[("other", ⟨⟨[]⟩, []⟩)]⟩ "d" ["x"] [] []).1
      (by decide)
  · exact (claim_C7_empty_on_failure
      ⟨[("d", ⟨⟨[("y", RawColumn.numeric [Flt.val 1])]⟩, []⟩)]⟩ "d" ["x"] [] []).2
      ⟨⟨[("y", RawColumn.numeric [Flt.val 1])]⟩, []⟩ (by decide)
      ⟨"x", by decide, by decide⟩

/-- **C8** — For every input, including empty arrays and arrays whose values
    are all NaN, each of computeHistogram, computeBoxPlot and computeHeatmap
    returns the explicit empty result when no valid (non-NaN) data remains
    (exception freedom is the totality of these functions: every degenerate
    path produces the empty value rather than raising). -/
theorem claim_C8_all_nan_empty
    (data xs ys vs : List Flt) (numBins gridSize : Nat)
    (columnName xColumn yColumn valueColumn : String)
    (hdata : ∀ f ∈ data, f.isNaN = true) (hxs : ∀ f ∈ xs, f.isNaN = true) :
    compute_histogram data numBins = none
    ∧ compute_boxplot columnName data = none
    ∧ compute_heatmap xs ys vs xColumn yColumn valueColumn gridSize = none := by
  have hv := validVals_eq_nil data hdata
  refine ⟨?_, ?_, ?_⟩
  · unfold compute_histogram
    by_cases h0 : data.length = 0
    · rw [if_pos h0]
    · rw [if_neg h0]
      simp [hv]
  · unfold compute_boxplot
    by_cases h0 : data.length = 0
    · rw [if_pos h0]
    · rw [if_neg h0]
      simp [hv]
  · unfold compute_heatmap
    by_cases h0 : xs.length = 0 ∨ ys.length = 0 ∨ vs.length = 0
    · rw [if_pos h0]
    · rw [if_neg h0]
      have hval : ((xs.zip (ys.zip vs)).filterMap validTriple) = [] := by
        rw [List.filterMap_eq_nil]
        intro t ht
        have hx : t.1 ∈ xs := (List.mem_zip ht).1
        have hnan := hxs t.1 hx
        obtain ⟨a, b, c⟩ := t
        cases a with
        | nan => rfl
        | val q => simp [Flt.isNaN] at hnan
      simp [hval]

/-- Witness for C8: one NaN cell in each array. -/
theorem claim_C8_witness :
    compute_histogram [Flt.nan] 30 = none
    ∧ compute_boxplot "c" [Flt.nan] = none
    ∧ compute_heatmap [Flt.nan] [Flt.val 1] [Flt.val 2] "x" "y" "v" 50 = none :=
  claim_C8_all_nan_empty [Flt.nan] [Flt.nan] [Flt.val 1] [Flt.val 2] 30 50
    "c" "x" "y" "v" (by decide) (by decide)

/-- **C4** — For every non-empty list of non-NaN values, computeBoxPlot
    returns Q1, median, Q3 by the linear-interpolation percentile method at
    25/50/75, IQR = Q3 - Q1, fences Q1 - 1.5*IQR and Q3 + 1.5*IQR, outliers
    exactly the values strictly outside the fences, reported min/max from the
    non-outlier subset when it is non-empty (global min/max otherwise,
    without crashing), and mean over all values including outliers. -/
theorem claim_C4_boxplot (columnName : String) (data : List Flt)
    (vals outs nonOut : List ℚ) (q1 med q3 iqr lf uf : ℚ)
    (hvals : vals = validVals data) (hne : vals ≠ [])
    (hq1 : q1 = percentileLin vals 25)
    (hmed : med = percentileLin vals 50)
    (hq3 : q3 = percentileLin vals 75)
    (hiqr : iqr = q3 - q1)
    (hlf : lf = q1 - 3/2 * iqr)
    (huf : uf = q3 + 3/2 * iqr)
    (houts : outs = vals.filter fun v => decide (v < lf ∨ uf < v))
    (hnon : nonOut = vals.filter fun v => decide (lf ≤ v ∧ v ≤ uf)) :
    compute_boxplot columnName data
      = some ⟨columnName,
              (if nonOut = [] then listMinQ vals else listMinQ nonOut),
              q1, med, q3,
              (if nonOut = [] then listMaxQ vals else listMaxQ nonOut),
              listSumQ vals / vals.length, outs, lf, uf, iqr, vals.length⟩
    ∧ (∀ v, v ∈ outs ↔ v ∈ vals ∧ (v < lf ∨ uf < v)) := by
  subst hvals hq1 hmed hq3 hiqr hlf huf houts hnon
  have hd0 : data ≠ [] := by
    intro h
    rw [h] at hne
    exact hne rfl
  constructor
  · unfold compute_boxplot
    rw [if_neg (by simpa [List.length_eq_zero] using hd0)]
    rw [if_neg (by simpa [List.length_eq_zero] using hne)]
    simp only [List.length_eq_zero]
  · intro v
    rw [List.mem_filter]
    simp

/-- Witness for C4: `[1,2,3,4,5,100]` gives Q1=2.25, median=3.5, Q3=4.75,
    IQR=2.5, fences -1.5 and 8.5, outliers `[100]`, min 1, max 5 (excluding
    the outlier), mean 115/6 over all six values. -/
theorem claim_C4_witness :
    compute_boxplot "col"
        [Flt.val 1, Flt.val 2, Flt.val 3, Flt.val 4, Flt.val 5, Flt.val 100]
      = some ⟨"col", 1, 9/4, 7/2, 19/4, 5, 115/6, [100], -(3/2), 17/2, 5/2, 6⟩ := by
  have h := (claim_C4_boxplot "col"
    [Flt.val 1, Flt.val 2, Flt.val 3, Flt.val 4, Flt.val 5, Flt.val 100]
    [1, 2, 3, 4, 5, 100] [100] [1, 2, 3, 4, 5]
    (9/4) (7/2) (19/4) (5/2) (-(3/2)) (17/2)
    (by decide) (by decide) (by decide) (by decide) (by decide) (by decide)
    (by decide) (by decide) (by decide) (by decide)).1
  rw [h]
  decide

theorem sum_map_add {α : Type} (l : List α) (f g : α → Nat) :
    (l.map fun a => f a + g a).sum = (l.map f).sum + (l.map g).sum := by
  induction l with
  | nil => simp
  | cons a t ih =>
    simp only [List.map_cons, List.sum_cons, ih]
    omega

theorem sum_ite_indicator (k nb : Nat) (h : k < nb) :
    ((List.range nb).map fun i => if k = i then 1 else 0).sum = 1 := by
  induction nb with
  | zero => omega
  | succ nb ih =>
    rw [List.range_succ, List.map_append, List.sum_append]
    by_cases hk : k = nb
    · subst hk
      have h0 : ((List.range k).map fun i => if k = i then 1 else 0).sum = 0 := by
        apply List.sum_eq_zero
        intro x hx
        obtain ⟨i, hi, rfl⟩ := List.mem_map.mp hx
        have : i < k := List.mem_range.mp hi
        simp [Nat.ne_of_gt this]
      simp [h0]
    · have hk2 : k < nb := by omega
      rw [ih hk2]
      simp [hk]

theorem sum_countP_partition (f : ℚ → Nat) (nb : Nat) (vals : List ℚ)
    (h : ∀ v ∈ vals, f v < nb) :
    ((List.range nb).map fun i => vals.countP fun v => decide (f v = i)).sum
      = vals.length := by
  induction vals with
  | nil => simp
  | cons v vs ih =>
    have hv := h v (List.mem_cons_self v vs)
    have hvs : ∀ w ∈ vs, f w < nb := fun w hw => h w (List.mem_cons_of_mem v hw)
    have hcons : ∀ i ∈ List.range nb,
        ((v :: vs).countP fun w => decide (f w = i))
          = (vs.countP fun w => decide (f w = i)) + (if f v = i then 1 else 0) := by
      intro i _
      rw [List.countP_cons]
      congr 1
      by_cases hfv : f v = i <;> simp [hfv]
    rw [List.map_congr_left hcons, sum_map_add, ih hvs, sum_ite_indicator (f v) nb hv]
    simp

theorem binIndex_lt (lo hi : ℚ) (nb : Nat) (v : ℚ) (hnb : nb ≠ 0) :
    binIndex lo hi nb v < nb :=
  Nat.lt_of_le_of_lt (Nat.min_le_right _ _) (by omega)

theorem binIndex_lo (lo hi : ℚ) (nb : Nat) :
    binIndex lo hi nb lo = 0 := by
  unfold binIndex
  rw [sub_self, zero_mul, zero_div, Int.floor_zero]
  simp

theorem binIndex_hi (lo hi : ℚ) (nb : Nat) (hlt : lo < hi) (hnb : nb ≠ 0) :
    binIndex lo hi nb hi = nb - 1 := by
  unfold binIndex
  have hne : hi - lo ≠ 0 := sub_ne_zero.mpr (ne_of_gt hlt)
  have hdiv : (hi - lo) * (nb : ℚ) / (hi - lo) = (nb : ℚ) := by
    field_simp
  rw [hdiv, Int.floor_natCast, Int.toNat_natCast]
  omega

theorem histEdges_length (lo hi : ℚ) (nb : Nat) :
    (histEdges lo hi nb).length = nb + 1 := by
  rw [histEdges, List.length_map, List.length_range]

theorem histEdges_getD (lo hi : ℚ) (nb i : Nat) (h : i < nb + 1) :
    (histEdges lo hi nb).getD i 0 = lo + (hi - lo) * i / nb := by
  have hlen : i < (histEdges lo hi nb).length := by rw [histEdges_length]; exact h
  rw [List.getD_eq_getElem?_getD, List.getElem?_eq_getElem hlen]
  simp only [histEdges, List.getElem_map, List.getElem_range, Option.getD_some]

theorem histCounts_length (lo hi : ℚ) (nb : Nat) (vals : List ℚ) :
    (histCounts lo hi nb vals).length = nb := by
  simp [histCounts]

theorem histCounts_getD (lo hi : ℚ) (nb : Nat) (vals : List ℚ) (i : Nat) (h : i < nb) :
    (histCounts lo hi nb vals).getD i 0
      = vals.countP fun v =>
          decide (lo ≤ v ∧ v ≤ hi) && decide (binIndex lo hi nb v = i) := by
  have hlen : i < (histCounts lo hi nb vals).length := by
    rw [histCounts_length]; exact h
  rw [List.getD_eq_getElem?_getD, List.getElem?_eq_getElem hlen]
  simp [histCounts]

theorem histCounts_sum (lo hi : ℚ) (nb : Nat) (vals : List ℚ)
    (hnb : nb ≠ 0) (h : ∀ v ∈ vals, lo ≤ v ∧ v ≤ hi) :
    (histCounts lo hi nb vals).sum = vals.length := by
  have hcong : ∀ i ∈ List.range nb,
      (vals.countP fun v => decide (lo ≤ v ∧ v ≤ hi) && decide (binIndex lo hi nb v = i))
        = vals.countP fun v => decide (binIndex lo hi nb v = i) := by
    intro i _
    apply List.countP_congr
    intro v hv
    have hr := h v hv
    simp [hr.1, hr.2]
  unfold histCounts
  rw [List.map_congr_left hcong]
  exact sum_countP_partition (binIndex lo hi nb) nb vals
    fun v _ => binIndex_lt lo hi nb v hnb

/-- **C5 (counterexample)** — For the single-value input `[2]` (min = max = 2)
    with 2 bins, `np.histogram` widens the degenerate range to
    `[min - 0.5, max + 0.5]`: the first edge is 1.5, not the minimum 2, so the
    edges do not span `[min, max]`, and the minimum value is counted in bin 1,
    not bin 0 (bin 0's count is 0 although N = 1). -/
theorem claim_C5_counterexample :
    compute_histogram [Flt.val 2] 2
      = some ⟨["1.50 - 2.00", "2.00 - 2.50"], [0, 1], [3/2, 2, 5/2], 2, 2, 2, 1⟩
    ∧ ([3/2, 2, 5/2] : List ℚ).getD 0 0 ≠ (2 : ℚ)
    ∧ ([0, 1] : List Nat).getD 0 0 = 0 := by
  refine ⟨by decide, by decide, by decide⟩

/-- **C5 (amended)** — For every input of N >= 1 non-NaN values and
    numBins >= 1 whose non-NaN minimum is strictly below its maximum (the
    degenerate min = max case is widened by numpy to `[min-0.5, max+0.5]`),
    computeHistogram returns numBins+1 bin edges spanning exactly `[min, max]`
    in equal-width bins, numBins counts whose sum equals N with the minimum
    value counted in bin 0 and the maximum counted in the last bin, and one
    label per bin formatted `"{edge_i:.2f} - {edge_i+1:.2f}"`. -/
theorem claim_C5_histogram (data : List Flt) (numBins : Nat)
    (vals edges : List ℚ) (counts : List Nat) (minV maxV : ℚ)
    (hvals : vals = validVals data) (hne : vals ≠ []) (hnb : numBins ≠ 0)
    (hmin : minV = listMinQ vals) (hmax : maxV = listMaxQ vals)
    (hlt : minV < maxV)
    (hedges : edges = histEdges minV maxV numBins)
    (hcounts : counts = histCounts minV maxV numBins vals) :
    compute_histogram data numBins
      = some ⟨(List.range numBins).map
                (fun i => fmt2 (edges.getD i 0) ++ " - " ++ fmt2 (edges.getD (i + 1) 0)),
              counts, edges, numBins, minV, maxV, vals.length⟩
    ∧ edges.length = numBins + 1
    ∧ edges.getD 0 0 = minV
    ∧ edges.getD numBins 0 = maxV
    ∧ (∀ i, i < numBins →
        edges.getD (i + 1) 0 - edges.getD i 0 = (maxV - minV) / numBins)
    ∧ counts.length = numBins
    ∧ counts.sum = vals.length
    ∧ binIndex minV maxV numBins minV = 0
    ∧ 0 < counts.getD 0 0
    ∧ binIndex minV maxV numBins maxV = numBins - 1
    ∧ 0 < counts.getD (numBins - 1) 0 := by
  subst hvals hmin hmax hedges hcounts
  have hd0 : data ≠ [] := by
    intro h
    rw [h] at hne
    exact hne rfl
  have hcast : ((numBins : ℚ)) ≠ 0 := Nat.cast_ne_zero.mpr hnb
  have hrange : ∀ v ∈ validVals data,
      listMinQ (validVals data) ≤ v ∧ v ≤ listMaxQ (validVals data) :=
    fun v hv => ⟨listMinQ_le _ v hv, le_listMaxQ _ v hv⟩
  refine ⟨?_, histEdges_length _ _ _, ?_, ?_, ?_, histCounts_length _ _ _ _, ?_, ?_, ?_, ?_, ?_⟩
  · unfold compute_histogram
    rw [if_neg (by simpa [List.length_eq_zero] using hd0)]
    rw [if_neg (by simpa [List.length_eq_zero] using hne)]
    rw [if_neg hnb]
    unfold outerEdges
    dsimp only
    rw [if_neg (ne_of_lt hlt)]
  · rw [histEdges_getD _ _ _ 0 (by omega)]
    simp
  · rw [histEdges_getD _ _ _ numBins (by omega)]
    field_simp
  · intro i hi
    rw [histEdges_getD _ _ _ (i + 1) (by omega), histEdges_getD _ _ _ i (by omega)]
    push_cast
    field_simp
    ring
  · exact histCounts_sum _ _ _ _ hnb hrange
  · exact binIndex_lo _ _ _
  · rw [histCounts_getD _ _ _ _ 0 (by omega)]
    refine List.countP_pos.mpr ⟨listMinQ (validVals data), listMinQ_mem _ hne, ?_⟩
    have hr := hrange _ (listMinQ_mem _ hne)
    simp [hr.1, hr.2, binIndex_lo]
  · exact binIndex_hi _ _ _ hlt hnb
  · rw [histCounts_getD _ _ _ _ (numBins - 1) (by omega)]
    refine List.countP_pos.mpr ⟨listMaxQ (validVals data), listMaxQ_mem _ hne, ?_⟩
    have hr := hrange _ (listMaxQ_mem _ hne)
    simp [hr.1, hr.2, binIndex_hi _ _ _ hlt hnb]

/-- Witness for C5: the spec's scenario 3 — histogram of `[1..10]` with 5
    bins has edges `[1, 2.8, 4.6, 6.4, 8.2, 10]` and counts summing to 10. -/
theorem claim_C5_witness :
    (1 : ℚ) < 10
    ∧ compute_histogram
        [Flt.val 1, Flt.val 2, Flt.val 3, Flt.val 4, Flt.val 5,
         Flt.val 6, Flt.val 7, Flt.val 8, Flt.val 9, Flt.val 10] 5
      = some ⟨["1.00 - 2.80", "2.80 - 4.60", "4.60 - 6.40", "6.40 - 8.20", "8.20 - 10.00"],
              [2, 2, 2, 2, 2], [1, 14/5, 23/5, 32/5, 41/5, 10], 5, 1, 10, 10⟩
    ∧ ([2, 2, 2, 2, 2] : List Nat).sum = 10 := by
  have h := (claim_C5_histogram
    [Flt.val 1, Flt.val 2, Flt.val 3, Flt.val 4, Flt.val 5,
     Flt.val 6, Flt.val 7, Flt.val 8, Flt.val 9, Flt.val 10] 5
    [1, 2, 3, 4, 5, 6, 7, 8, 9, 10] [1, 14/5, 23/5, 32/5, 41/5, 10]
    [2, 2, 2, 2, 2] 1 10
    (by decide) (by decide) (by decide) (by decide) (by decide) (by decide)
    (by decide) (by decide)).1
  refine ⟨by decide, ?_, by decide⟩
  rw [h]
  decide

theorem find_setCached (s : Store) (cs : List (String × Boundary)) (did : String) :
    (s.setCached cs).find did = (s.find did).map fun ds => ⟨ds.table, cs⟩ := by
  unfold Store.setCached Store.find
  rw [List.find?_map, Option.map_map, Option.map_map]
  rfl

theorem fetch_setCached (s : Store) (cs : List (String × Boundary)) (did : String)
    (columns : List String) (bb : List ℚ) (fcols : List String) :
    get_dataset_data_and_stats_combined (s.setCached cs) did columns bb fcols
      = get_dataset_data_and_stats_combined s did columns bb fcols := by
  unfold get_dataset_data_and_stats_combined
  rw [find_setCached]
  cases h : s.find did with
  | none => rfl
  | some ds => rfl

/-- **C3** — For every fetch with a bounding box, the returned boundaries are
    computed from the fetched-and-filtered data: for each numeric column the
    min, max and count of the non-NaN values over the retained rows only, and
    the cached BoundaryIndex never flows into the result (replacing every
    dataset's cached statistics with anything changes nothing). -/
theorem claim_C3_boundaries_from_filtered (store : Store) (datasetId : String)
    (columns : List String) (bb : List ℚ) (fcols : List String)
    (ds : DSet) (rows rows2 : List (String × RawColumn))
    (hbb : bb.length = 4 ∨ bb.length = 6)
    (hfind : store.find datasetId = some ds)
    (hcols : ¬ columns = [])
    (hfetch : fetchCols ds.table columns = some rows)
    (hfl : ¬ firstLen rows = 0)
    (happly : applyBBox columns fcols bb rows = some rows2)
    (hfl2 : ¬ firstLen rows2 = 0) :
    (get_dataset_data_and_stats_combined store datasetId columns bb fcols).2
      = computeBoundaries columns rows2
    ∧ (∀ c vd, c ∈ columns → lookupCol rows2 c = some (.numeric vd) →
        validVals vd ≠ [] →
        (c, (⟨listMinQ (validVals vd), listMaxQ (validVals vd),
              (validVals vd).length⟩ : Boundary)) ∈ computeBoundaries columns rows2)
    ∧ (∀ cs, get_dataset_data_and_stats_combined (store.setCached cs) datasetId columns bb fcols
        = get_dataset_data_and_stats_combined store datasetId columns bb fcols) := by
  refine ⟨?_, ?_, fun cs => fetch_setCached store cs datasetId columns bb fcols⟩
  · unfold get_dataset_data_and_stats_combined
    rw [hfind]
    dsimp only
    rw [if_neg hcols, hfetch]
    dsimp only
    rw [if_neg hfl, happly]
    dsimp only
    rw [if_neg hfl2]
  · intro c vd hc hlook hval
    unfold computeBoundaries
    refine List.mem_filterMap.mpr ⟨c, hc, ?_⟩
    rw [hlook]
    dsimp only
    rw [if_neg (by simpa [List.length_eq_zero] using hval)]

/-- Witness for C3: the spec's scenario-2 store carrying deliberately wrong
    cached statistics; the bounding-box fetch recomputes `{min,max,count}`
    from the two retained rows and ignores the cache. -/
theorem claim_C3_witness :
    (get_dataset_data_and_stats_combined
        ⟨[("d", ⟨⟨[("x", RawColumn.numeric [Flt.val 0, Flt.val 1, Flt.val 2, Flt.val 3]),
                   ("y", RawColumn.numeric [Flt.val 0, Flt.val 1, Flt.val 2, Flt.val 3]),
                   ("z", RawColumn.numeric [Flt.val 10, Flt.val 20, Flt.val 30, Flt.val 40])]⟩,
                 [("x", ⟨-99, 99, 4⟩)]⟩)]⟩
        "d" ["x", "y", "z"] [1/2, 5/2, 1/2, 5/2] []).2
      = [("x", ⟨1, 2, 2⟩), ("y", ⟨1, 2, 2⟩), ("z", ⟨20, 30, 2⟩)]
    ∧ get_dataset_data_and_stats_combined
        (Store.setCached
          ⟨[("d", ⟨⟨[("x", RawColumn.numeric [Flt.val 0, Flt.val 1, Flt.val 2, Flt.val 3]),
                     ("y", RawColumn.numeric [Flt.val 0, Flt.val 1, Flt.val 2, Flt.val 3]),
                     ("z", RawColumn.numeric [Flt.val 10, Flt.val 20, Flt.val 30, Flt.val 40])]⟩,
                   [("x", ⟨-99, 99, 4⟩)]⟩)]⟩
          [("x", ⟨123, 456, 7⟩)])
        "d" ["x", "y", "z"] [1/2, 5/2, 1/2, 5/2] []
      = get_dataset_data_and_stats_combined
          ⟨[("d", ⟨⟨[("x", RawColumn.numeric [Flt.val 0, Flt.val 1, Flt.val 2, Flt.val 3]),
                     ("y", RawColumn.numeric [Flt.val 0, Flt.val 1, Flt.val 2, Flt.val 3]),
                     ("z", RawColumn.numeric [Flt.val 10, Flt.val 20, Flt.val 30, Flt.val 40])]⟩,
                   [("x", ⟨-99, 99, 4⟩)]⟩)]⟩
          "d" ["x", "y", "z"] [1/2, 5/2, 1/2, 5/2] [] := by
  have h := claim_C3_boundaries_from_filtered
    ⟨[("d", ⟨⟨[("x", RawColumn.numeric [Flt.val 0, Flt.val 1, Flt.val 2, Flt.val 3]),
               ("y", RawColumn.numeric [Flt.val 0, Flt.val 1, Flt.val 2, Flt.val 3]),
               ("z", RawColumn.numeric [Flt.val 10, Flt.val 20, Flt.val 30, Flt.val 40])]⟩,
             [("x", ⟨-99, 99, 4⟩)]⟩)]⟩
    "d" ["x", "y", "z"] [1/2, 5/2, 1/2, 5/2] []
    ⟨⟨[("x", RawColumn.numeric [Flt.val 0, Flt.val 1, Flt.val 2, Flt.val 3]),
       ("y", RawColumn.numeric [Flt.val 0, Flt.val 1, Flt.val 2, Flt.val 3]),
       ("z", RawColumn.numeric [Flt.val 10, Flt.val 20, Flt.val 30, Flt.val 40])]⟩,
     [("x", ⟨-99, 99, 4⟩)]⟩
    [("x", RawColumn.numeric [Flt.val 0, Flt.val 1, Flt.val 2, Flt.val 3]),
     ("y", RawColumn.numeric [Flt.val 0, Flt.val 1, Flt.val 2, Flt.val 3]),
     ("z", RawColumn.numeric [Flt.val 10, Flt.val 20, Flt.val 30, Flt.val 40])]
    [("x", RawColumn.numeric [Flt.val 1, Flt.val 2]),
     ("y", RawColumn.numeric [Flt.val 1, Flt.val 2]),
     ("z", RawColumn.numeric [Flt.val 20, Flt.val 30])]
    (Or.inl (by decide)) (by decide) (by decide) (by decide) (by decide)
    (by decide) (by decide)
  refine ⟨?_, h.2.2 [("x", ⟨123, 456, 7⟩)]⟩
  rw [h.1]
  decide

theorem fetch_success (store : Store) (datasetId : String)
    (columns : List String) (bb : List ℚ) (fcols : List String)
    (ds : DSet) (rows rows2 : List (String × RawColumn))
    (hfind : store.find datasetId = some ds)
    (hcols : ¬ columns = [])
    (hfetch : fetchCols ds.table columns = some rows)
    (hfl : ¬ firstLen rows = 0)
    (happly : applyBBox columns fcols bb rows = some rows2)
    (hfl2 : ¬ firstLen rows2 = 0) :
    get_dataset_data_and_stats_combined store datasetId columns bb fcols
      = (interleave (rows2.map fun p => p.2.coerce) (firstLen rows2),
         computeBoundaries columns rows2) := by
  unfold get_dataset_data_and_stats_combined
  rw [hfind]
  dsimp only
  rw [if_neg hcols, hfetch]
  dsimp only
  rw [if_neg hfl, happly]
  dsimp only
  rw [if_neg hfl2]

theorem computeBoundaries_mem_elim (columns : List String)
    (rows : List (String × RawColumn)) (c : String) (b : Boundary)
    (h : (c, b) ∈ computeBoundaries columns rows) :
    c ∈ columns ∧ ∃ vd, lookupCol rows c = some (.numeric vd) ∧ validVals vd ≠ [] ∧
      b = ⟨listMinQ (validVals vd), listMaxQ (validVals vd), (validVals vd).length⟩ := by
  unfold computeBoundaries at h
  obtain ⟨a, ha, hfa⟩ := List.mem_filterMap.mp h
  cases hl : lookupCol rows a with
  | none => rw [hl] at hfa; simp at hfa
  | some rc =>
    cases rc with
    | text vs => rw [hl] at hfa; simp at hfa
    | numeric vd =>
      rw [hl] at hfa
      dsimp only at hfa
      by_cases hz : (validVals vd).length = 0
      · rw [if_pos hz] at hfa
        simp at hfa
      · rw [if_neg hz] at hfa
        rw [Option.some.injEq, Prod.mk.injEq] at hfa
        obtain ⟨rfl, rfl⟩ := hfa
        exact ⟨ha, vd, hl, fun hnil => hz (by rw [hnil]; rfl), rfl⟩

theorem computeBoundaries_mem_intro (columns : List String)
    (rows : List (String × RawColumn)) (c : String) (vd : List Flt)
    (hc : c ∈ columns) (hlook : lookupCol rows c = some (.numeric vd))
    (hval : validVals vd ≠ []) :
    (c, (⟨listMinQ (validVals vd), listMaxQ (validVals vd),
          (validVals vd).length⟩ : Boundary)) ∈ computeBoundaries columns rows := by
  unfold computeBoundaries
  refine List.mem_filterMap.mpr ⟨c, hc, ?_⟩
  rw [hlook]
  dsimp only
  rw [if_neg (by simpa [List.length_eq_zero] using hval)]

theorem RawColumn.coerce_length (c : RawColumn) : c.coerce.length = c.length := by
  cases c with
  | numeric v => rfl
  | text v => simp [RawColumn.coerce, RawColumn.length]

/-- **C10 (counterexample)** — The claim's parenthetical says a requested
    column that is absent from the boundaries map occupies its stride slot
    *coerced to NaN*.  A text/object-dtype column whose entries parse as
    numbers (e.g. the string "7") is absent from the boundaries map (its
    dtype is not numeric) yet its stride slot holds the parsed value 7.0,
    not NaN. -/
theorem claim_C10_counterexample :
    get_dataset_data_and_stats_combined
        ⟨[("d", ⟨⟨[("x", RawColumn.numeric [Flt.val 1]),
                   ("t", RawColumn.text [some 7])]⟩, []⟩)]⟩
        "d" ["x", "t"] [] []
      = ([Flt.val 1, Flt.val 7], [("x", ⟨1, 1, 1⟩)])
    ∧ strideSlice [Flt.val 1, Flt.val 7] 2 1 = [Flt.val 7]
    ∧ [Flt.val 7] ≠ [Flt.nan] := by
  refine ⟨by decide, by decide, by decide⟩

/-- **C10 (amended)** — For every fetch, the returned boundaries map contains
    an entry exactly for those requested columns whose fetched dtype is
    numeric and which retain at least one non-NaN value after filtering; a
    requested column that fails this condition still occupies its stride slot
    in the interleaved buffer (text columns are coerced entrywise: parseable
    entries keep their parsed numeric value, unparseable entries become NaN)
    but is silently absent from the boundaries map, and every present entry
    satisfies min <= max and validCount >= 1. -/
theorem claim_C10_boundaries_keys (store : Store) (datasetId : String)
    (columns : List String) (bb : List ℚ) (fcols : List String)
    (ds : DSet) (rows rows2 : List (String × RawColumn)) (m : Nat)
    (hfind : store.find datasetId = some ds)
    (hcols : ¬ columns = [])
    (hfetch : fetchCols ds.table columns = some rows)
    (hfl : ¬ firstLen rows = 0)
    (happly : applyBBox columns fcols bb rows = some rows2)
    (hm : m = firstLen rows2)
    (hfl2 : ¬ firstLen rows2 = 0)
    (hrect2 : ∀ p ∈ rows2, p.2.length = m)
    (hkeys : rows2.map Prod.fst = columns) :
    (∀ c ∈ columns,
      (∃ b, (c, b) ∈ (get_dataset_data_and_stats_combined store datasetId columns bb fcols).2)
        ↔ ∃ vd, lookupCol rows2 c = some (.numeric vd) ∧ validVals vd ≠ [])
    ∧ (∀ c b,
        (c, b) ∈ (get_dataset_data_and_stats_combined store datasetId columns bb fcols).2 →
        b.min_value ≤ b.max_value ∧ 1 ≤ b.valid_count)
    ∧ (∀ i, i < columns.length →
        strideSlice (get_dataset_data_and_stats_combined store datasetId columns bb fcols).1
            columns.length i
          = ((rows2.getD i ("", RawColumn.numeric [])).2).coerce)
    ∧ (∀ vs : List (Option ℚ), (RawColumn.text vs).coerce
        = vs.map fun o => match o with | some q => Flt.val q | none => Flt.nan) := by
  have hres := fetch_success store datasetId columns bb fcols ds rows rows2
    hfind hcols hfetch hfl happly hfl2
  have hlen2 : rows2.length = columns.length := by
    rw [← hkeys, List.length_map]
  refine ⟨?_, ?_, ?_, fun vs => rfl⟩
  · intro c hc
    rw [hres]
    constructor
    · rintro ⟨b, hb⟩
      obtain ⟨-, vd, hlook, hval, -⟩ := computeBoundaries_mem_elim columns rows2 c b hb
      exact ⟨vd, hlook, hval⟩
    · rintro ⟨vd, hlook, hval⟩
      exact ⟨_, computeBoundaries_mem_intro columns rows2 c vd hc hlook hval⟩
  · intro c b hb
    rw [hres] at hb
    obtain ⟨-, vd, -, hval, rfl⟩ := computeBoundaries_mem_elim columns rows2 c b hb
    refine ⟨listMinQ_le_listMaxQ _ hval, ?_⟩
    have hlen : (validVals vd).length ≠ 0 := by simpa [List.length_eq_zero] using hval
    exact Nat.pos_of_ne_zero hlen
  · intro i hi
    rw [hres]
    dsimp only
    have hlens : ∀ c' ∈ rows2.map fun p => p.2.coerce, c'.length = firstLen rows2 := by
      intro c' hc'
      obtain ⟨p, hp, rfl⟩ := List.mem_map.mp hc'
      rw [RawColumn.coerce_length, hrect2 p hp, hm]
    have hi2 : i < rows2.length := by rw [hlen2]; exact hi
    have hiK : i < (rows2.map fun p => p.2.coerce).length := by
      rw [List.length_map]; exact hi2
    have hKeq : columns.length = (rows2.map fun p => p.2.coerce).length := by
      rw [List.length_map, hlen2]
    rw [hKeq, strideSlice_interleave (firstLen rows2) _ i hlens hiK]
    rw [List.getD_eq_getElem?_getD, List.getElem?_eq_getElem hiK]
    rw [List.getD_eq_getElem?_getD, List.getElem?_eq_getElem hi2]
    simp [List.getElem_map]

/-- Witness for C10's amended theorem: a numeric column, an all-NaN numeric
    column and a parseable text column; only the first gets a boundary entry,
    all three occupy their stride slots. -/
theorem claim_C10_witness :
    ((∃ b, ("x", b) ∈ (get_dataset_data_and_stats_combined
        ⟨[("d", ⟨⟨[("x", RawColumn.numeric [Flt.val 1, Flt.val 2]),
                   ("w", RawColumn.numeric [Flt.nan, Flt.nan]),
                   ("t", RawColumn.text [some 7, none])]⟩, []⟩)]⟩
        "d" ["x", "w", "t"] [] []).2)
      ↔ ∃ vd, lookupCol
            [("x", RawColumn.numeric [Flt.val 1, Flt.val 2]),
             ("w", RawColumn.numeric [Flt.nan, Flt.nan]),
             ("t", RawColumn.text [some 7, none])] "x" = some (.numeric vd)
          ∧ validVals vd ≠ [])
    ∧ strideSlice (get_dataset_data_and_stats_combined
        ⟨[("d", ⟨⟨[("x", RawColumn.numeric [Flt.val 1, Flt.val 2]),
                   ("w", RawColumn.numeric [Flt.nan, Flt.nan]),
                   ("t", RawColumn.text [some 7, none])]⟩, []⟩)]⟩
        "d" ["x", "w", "t"] [] []).1 3 2
      = [Flt.val 7, Flt.nan] := by
  have h := claim_C10_boundaries_keys
    ⟨[("d", ⟨⟨[("x", RawColumn.numeric [Flt.val 1, Flt.val 2]),
               ("w", RawColumn.numeric [Flt.nan, Flt.nan]),
               ("t", RawColumn.text [some 7, none])]⟩, []⟩)]⟩
    "d" ["x", "w", "t"] [] []
    ⟨⟨[("x", RawColumn.numeric [Flt.val 1, Flt.val 2]),
       ("w", RawColumn.numeric [Flt.nan, Flt.nan]),
       ("t", RawColumn.text [some 7, none])]⟩, []⟩
    [("x", RawColumn.numeric [Flt.val 1, Flt.val 2]),
     ("w", RawColumn.numeric [Flt.nan, Flt.nan]),
     ("t", RawColumn.text [some 7, none])]
    [("x", RawColumn.numeric [Flt.val 1, Flt.val 2]),
     ("w", RawColumn.numeric [Flt.nan, Flt.nan]),
     ("t", RawColumn.text [some 7, none])] 2
    (by decide) (by decide) (by decide) (by decide) (by decide) (by decide)
    (by decide) (by decide) (by decide)
  refine ⟨h.1 "x" (by decide), ?_⟩
  exact (h.2.2.1 2 (by decide)).trans (by decide)

theorem bumpCell_find_eq (acc : List ((Nat × Nat) × ℚ × Nat)) (k : Nat × Nat) (v : ℚ) :
    accFind (bumpCell acc k v) k
      = some (match accFind acc k with
              | none => (v, 1)
              | some sc => (sc.1 + v, sc.2 + 1)) := by
  induction acc with
  | nil => simp [bumpCell, accFind]
  | cons e rest ih =>
    by_cases he : e.1 = k
    · unfold bumpCell
      rw [if_pos he]
      unfold accFind
      rw [List.find?_cons_of_pos _ (by simpa using he),
          List.find?_cons_of_pos _ (by simpa using he)]
      rfl
    · unfold bumpCell
      rw [if_neg he]
      unfold accFind
      rw [List.find?_cons_of_neg _ (by simpa using he),
          List.find?_cons_of_neg _ (by simpa using he)]
      exact ih

theorem bumpCell_find_ne (acc : List ((Nat × Nat) × ℚ × Nat)) (k k' : Nat × Nat) (v : ℚ)
    (hne : k' ≠ k) :
    accFind (bumpCell acc k v) k' = accFind acc k' := by
  induction acc with
  | nil =>
    unfold bumpCell accFind
    rw [List.find?_cons_of_neg _ (by simpa using fun h => hne h.symm)]
  | cons e rest ih =>
    by_cases he : e.1 = k
    · unfold bumpCell
      rw [if_pos he]
      by_cases he' : e.1 = k'
      · exact absurd (he'.symm.trans he) hne
      · unfold accFind
        rw [List.find?_cons_of_neg _ (by simpa using he'),
            List.find?_cons_of_neg _ (by simpa using he')]
    · unfold bumpCell
      rw [if_neg he]
      by_cases he' : e.1 = k'
      · unfold accFind
        rw [List.find?_cons_of_pos _ (by simpa using he'),
            List.find?_cons_of_pos _ (by simpa using he')]
      · unfold accFind
        rw [List.find?_cons_of_neg _ (by simpa using he'),
            List.find?_cons_of_neg _ (by simpa using he')]
        exact ih

theorem bumpCell_keys (acc : List ((Nat × Nat) × ℚ × Nat)) (k : Nat × Nat) (v : ℚ) :
    (bumpCell acc k v).map Prod.fst
      = if k ∈ acc.map Prod.fst then acc.map Prod.fst
        else acc.map Prod.fst ++ [k] := by
  induction acc with
  | nil => simp [bumpCell]
  | cons e rest ih =>
    by_cases he : e.1 = k
    · unfold bumpCell
      rw [if_pos he, if_pos (by simp [he.symm])]
      rfl
    · unfold bumpCell
      rw [if_neg he]
      simp only [List.map_cons, ih]
      by_cases hm : k ∈ rest.map Prod.fst
      · rw [if_pos hm, if_pos (by simp [hm])]
      · have hne2 : ¬ k ∈ e.1 :: List.map Prod.fst rest := by
          simp only [List.mem_cons]
          push_neg
          exact ⟨fun h => he h.symm, hm⟩
        rw [if_neg hm, if_neg hne2]
        simp

theorem aggregateCells_append_singleton (pts : List ((Nat × Nat) × ℚ))
    (p : (Nat × Nat) × ℚ) :
    aggregateCells (pts ++ [p]) = bumpCell (aggregateCells pts) p.1 p.2 := by
  unfold aggregateCells
  rw [List.foldl_append]
  rfl

theorem agg_find (pts : List ((Nat × Nat) × ℚ)) (k : Nat × Nat) :
    accFind (aggregateCells pts) k
      = if pts.countP (fun p => decide (p.1 = k)) = 0 then none
        else some (((pts.filter fun p => decide (p.1 = k)).map fun p => p.2).sum,
                   pts.countP fun p => decide (p.1 = k)) := by
  induction pts using List.reverseRecOn with
  | nil => simp [aggregateCells, accFind]
  | append_singleton pts p ih =>
    rw [aggregateCells_append_singleton]
    by_cases hk : p.1 = k
    · rw [show p.1 = k from hk, bumpCell_find_eq, ih]
      have hc1 : List.countP (fun q => decide (q.1 = k)) [p] = 1 := by simp [hk]
      have hf1 : List.filter (fun q => decide (q.1 = k)) [p] = [p] := by simp [hk]
      rw [List.countP_append, List.filter_append, hc1, hf1]
      by_cases hc : pts.countP (fun q => decide (q.1 = k)) = 0
      · have hfil : pts.filter (fun q => decide (q.1 = k)) = [] := by
          rw [List.filter_eq_nil_iff]
          intro a ha
          have h2 := List.countP_eq_zero.mp hc a ha
          simpa using h2
        rw [if_pos hc, if_neg (by omega)]
        simp [hc, hfil]
      · rw [if_neg hc, if_neg (by omega)]
        simp
    · have hc0 : List.countP (fun q => decide (q.1 = k)) [p] = 0 := by simp [hk]
      have hf0 : List.filter (fun q => decide (q.1 = k)) [p] = [] := by simp [hk]
      rw [bumpCell_find_ne _ _ _ _ fun h => hk h.symm, ih,
          List.countP_append, List.filter_append, hc0, hf0]
      simp

theorem agg_keys_nodup (pts : List ((Nat × Nat) × ℚ)) :
    ((aggregateCells pts).map Prod.fst).Nodup := by
  induction pts using List.reverseRecOn with
  | nil => simp [aggregateCells]
  | append_singleton pts p ih =>
    rw [aggregateCells_append_singleton, bumpCell_keys]
    by_cases hm : p.1 ∈ (aggregateCells pts).map Prod.fst
    · rw [if_pos hm]
      exact ih
    · rw [if_neg hm]
      refine List.nodup_append.mpr ⟨ih, List.nodup_singleton _, ?_⟩
      intro a ha hb
      rw [List.mem_singleton] at hb
      subst hb
      exact hm ha

theorem agg_keys_subset (pts : List ((Nat × Nat) × ℚ)) :
    ∀ x ∈ (aggregateCells pts).map Prod.fst, x ∈ pts.map Prod.fst := by
  induction pts using List.reverseRecOn with
  | nil => simp [aggregateCells]
  | append_singleton pts p ih =>
    rw [aggregateCells_append_singleton, bumpCell_keys]
    intro x hx
    rw [List.map_append]
    by_cases hm : p.1 ∈ (aggregateCells pts).map Prod.fst
    · rw [if_pos hm] at hx
      exact List.mem_append_left _ (ih x hx)
    · rw [if_neg hm] at hx
      rcases List.mem_append.mp hx with h | h
      · exact List.mem_append_left _ (ih x h)
      · exact List.mem_append_right _ (by simpa using h)

theorem accFind_of_mem (acc : List ((Nat × Nat) × ℚ × Nat)) (e : (Nat × Nat) × ℚ × Nat)
    (hnd : (acc.map Prod.fst).Nodup) (he : e ∈ acc) :
    accFind acc e.1 = some e.2 := by
  induction acc with
  | nil => simp at he
  | cons f rest ih =>
    rcases List.mem_cons.mp he with h | h
    · subst h
      unfold accFind
      rw [List.find?_cons_of_pos _ (by simp)]
      rfl
    · have hnd2 : ((f :: rest).map Prod.fst).Nodup := hnd
      rw [List.map_cons, List.nodup_cons] at hnd2
      have hne : f.1 ≠ e.1 := by
        intro hcontra
        exact hnd2.1 (hcontra ▸ List.mem_map_of_mem Prod.fst h)
      unfold accFind
      rw [List.find?_cons_of_neg _ (by simpa using hne)]
      exact ih hnd2.2 h

theorem agg_mem_spec (pts : List ((Nat × Nat) × ℚ)) (e : (Nat × Nat) × ℚ × Nat)
    (he : e ∈ aggregateCells pts) :
    e.2.2 = pts.countP (fun p => decide (p.1 = e.1))
    ∧ e.2.1 = ((pts.filter fun p => decide (p.1 = e.1)).map fun p => p.2).sum
    ∧ 0 < e.2.2 := by
  have hf := accFind_of_mem _ e (agg_keys_nodup pts) he
  rw [agg_find] at hf
  by_cases hc : pts.countP (fun p => decide (p.1 = e.1)) = 0
  · rw [if_pos hc] at hf
    simp at hf
  · rw [if_neg hc] at hf
    rw [Option.some.injEq] at hf
    refine ⟨?_, ?_, ?_⟩
    · rw [← hf]
    · rw [← hf]
    · rw [← hf]
      exact Nat.pos_of_ne_zero hc

theorem agg_length_le (pts : List ((Nat × Nat) × ℚ)) :
    (aggregateCells pts).length ≤ pts.length := by
  have h1 : ((aggregateCells pts).map Prod.fst).length = (aggregateCells pts).length :=
    List.length_map _ _
  have h2 : List.Subperm ((aggregateCells pts).map Prod.fst) (pts.map Prod.fst) :=
    (agg_keys_nodup pts).subperm (agg_keys_subset pts)
  have h3 := h2.length_le
  rw [h1, List.length_map] at h3
  exact h3

theorem agg_ne_nil (pts : List ((Nat × Nat) × ℚ)) (h : pts ≠ []) :
    aggregateCells pts ≠ [] := by
  cases pts with
  | nil => exact absurd rfl h
  | cons p0 rest =>
    intro hnil
    have h1 := agg_find (p0 :: rest) p0.1
    rw [hnil] at h1
    have hc : ¬ (p0 :: rest).countP (fun p => decide (p.1 = p0.1)) = 0 := by
      rw [List.countP_cons]
      simp
    rw [if_neg hc] at h1
    simp [accFind] at h1

theorem filterMap_validTriple (xs ys vs : List ℚ) :
    ((xs.map Flt.val).zip ((ys.map Flt.val).zip (vs.map Flt.val))).filterMap validTriple
      = xs.zip (ys.zip vs) := by
  rw [List.zip_map, List.zip_map, List.filterMap_map]
  have hfun : (validTriple ∘ Prod.map Flt.val (Prod.map Flt.val Flt.val))
      = (some : ℚ × ℚ × ℚ → Option (ℚ × ℚ × ℚ)) := by
    funext t
    obtain ⟨x, y, v⟩ := t
    rfl
  rw [hfun, List.filterMap_some]

theorem map_pr1_zip3 (xs ys vs : List ℚ)
    (hys : ys.length = xs.length) (hvs : vs.length = xs.length) :
    ((xs.zip (ys.zip vs)).map fun t => t.1) = xs := by
  have h : (fun t : ℚ × ℚ × ℚ => t.1) = Prod.fst := rfl
  rw [h]
  apply List.map_fst_zip
  rw [List.length_zip, hys, hvs]
  simp

theorem map_pr21_zip3 (xs ys vs : List ℚ)
    (hys : ys.length = xs.length) (hvs : vs.length = xs.length) :
    ((xs.zip (ys.zip vs)).map fun t => t.2.1) = ys := by
  have h1 : ((xs.zip (ys.zip vs)).map fun t => t.2.1)
      = ((xs.zip (ys.zip vs)).map Prod.snd).map Prod.fst := by
    rw [List.map_map]
    rfl
  rw [h1, List.map_snd_zip _ _ (by rw [List.length_zip, hys, hvs]; simp),
      List.map_fst_zip _ _ (by rw [hvs, hys])]

/-- The success path of `compute_heatmap`: on NaN-free inputs of equal
    nonzero length with a nonzero grid, the result is the record computed by
    `heatmapOn` on the underlying rationals. -/
theorem compute_heatmap_eq (xs ys vs : List ℚ) (xc yc vc : String) (g : Nat)
    (hys : ys.length = xs.length) (hvs : vs.length = xs.length)
    (hne : xs ≠ []) (hg : g ≠ 0) :
    compute_heatmap (xs.map Flt.val) (ys.map Flt.val) (vs.map Flt.val) xc yc vc g
      = some (heatmapOn xs ys vs xc yc vc g) := by
  have hxlen : xs.length ≠ 0 := by simpa [List.length_eq_zero] using hne
  unfold compute_heatmap heatmapOn
  rw [filterMap_validTriple]
  rw [if_neg (by
    push_neg
    refine ⟨?_, ?_, ?_⟩ <;> rw [List.length_map] <;> omega)]
  dsimp only
  rw [if_neg (by rw [List.length_zip, List.length_zip, hys, hvs]; simpa using hxlen)]
  rw [if_neg hg]
  rw [map_pr1_zip3 xs ys vs hys hvs, map_pr21_zip3 xs ys vs hys hvs]

theorem binClip_lt (g : Nat) (lo bs c : ℚ) (hg : g ≠ 0) :
    binClip g lo bs c < g := by
  unfold binClip
  split
  · omega
  · have h1 : max 0 (min ⌊(c - lo) / bs⌋ ((g : Int) - 1)) ≤ (g : Int) - 1 := by
      apply max_le
      · omega
      · exact min_le_right _ _
    calc (max 0 (min ⌊(c - lo) / bs⌋ ((g : Int) - 1))).toNat
        ≤ ((g : Int) - 1).toNat := Int.toNat_le_toNat h1
      _ < g := by omega

theorem binClip_zero_bs (g : Nat) (lo c : ℚ) : binClip g lo 0 c = 0 := by
  unfold binClip
  rw [if_pos rfl]

theorem foldl_min_replicate (m : Nat) (c : ℚ) :
    (List.replicate m c).foldl min c = c := by
  induction m with
  | zero => rfl
  | succ m ih =>
    rw [List.replicate_succ, List.foldl_cons, min_self]
    exact ih

theorem foldl_max_replicate (m : Nat) (c : ℚ) :
    (List.replicate m c).foldl max c = c := by
  induction m with
  | zero => rfl
  | succ m ih =>
    rw [List.replicate_succ, List.foldl_cons, max_self]
    exact ih

theorem listMinQ_replicate (n : Nat) (c : ℚ) (hn : n ≠ 0) :
    listMinQ (List.replicate n c) = c := by
  cases n with
  | zero => exact absurd rfl hn
  | succ m =>
    rw [List.replicate_succ, listMinQ]
    exact foldl_min_replicate m c

theorem listMaxQ_replicate (n : Nat) (c : ℚ) (hn : n ≠ 0) :
    listMaxQ (List.replicate n c) = c := by
  cases n with
  | zero => exact absurd rfl hn
  | succ m =>
    rw [List.replicate_succ, listMaxQ]
    exact foldl_max_replicate m c

/-- **C9** — For every heatmap input of N rows with non-NaN x/y/value and
    non-degenerate axis ranges, each point is assigned the per-axis bin index
    `floor((coord - min) / binSize)` clamped to `[0, gridSize-1]`; only
    occupied cells are emitted, each emitted cell's count equals the number
    of input points whose clamped bin indices equal that cell, its avgValue
    equals the sum of those points' values divided by that count, and the
    number of emitted cells never exceeds `min(N, gridSize^2)`. -/
theorem claim_C9_heatmap_cells (xs ys vs : List ℚ) (xc yc vc : String) (g : Nat)
    (keyed : List ((Nat × Nat) × ℚ)) (minX maxX minY maxY xbs ybs : ℚ)
    (hys : ys.length = xs.length) (hvs : vs.length = xs.length)
    (hne : xs ≠ []) (hg : g ≠ 0)
    (hminX : minX = listMinQ xs) (hmaxX : maxX = listMaxQ xs)
    (hminY : minY = listMinQ ys) (hmaxY : maxY = listMaxQ ys)
    (hxlt : minX < maxX) (hylt : minY < maxY)
    (hxbs : xbs = (maxX - minX) / g) (hybs : ybs = (maxY - minY) / g)
    (hkeyed : keyed = (xs.zip (ys.zip vs)).map fun t =>
        ((binClip g minX xbs t.1, binClip g minY ybs t.2.1), t.2.2)) :
    compute_heatmap (xs.map Flt.val) (ys.map Flt.val) (vs.map Flt.val) xc yc vc g
      = some (heatmapOn xs ys vs xc yc vc g)
    ∧ xbs ≠ 0
    ∧ ybs ≠ 0
    ∧ ((heatmapOn xs ys vs xc yc vc g).cells
        = (aggregateCells keyed).map fun e => HeatCell.mk e.1.1 e.1.2 (e.2.1 / e.2.2) e.2.2)
    ∧ (∀ cell ∈ (heatmapOn xs ys vs xc yc vc g).cells,
        0 < cell.count
        ∧ cell.count = keyed.countP (fun p => decide (p.1 = (cell.x_index, cell.y_index)))
        ∧ cell.avg_value
            = ((keyed.filter fun p => decide (p.1 = (cell.x_index, cell.y_index))).map
                fun p => p.2).sum / cell.count)
    ∧ (heatmapOn xs ys vs xc yc vc g).cells.length ≤ xs.length
    ∧ (heatmapOn xs ys vs xc yc vc g).cells.length ≤ g * g
    ∧ (∀ lo bs q, bs ≠ 0 → binClip g lo bs q
        = (max 0 (min ⌊(q - lo) / bs⌋ ((g : Int) - 1))).toNat) := by
  have hgq : ((g : ℚ)) ≠ 0 := Nat.cast_ne_zero.mpr hg
  have hcells : (heatmapOn xs ys vs xc yc vc g).cells
      = (aggregateCells keyed).map fun e => HeatCell.mk e.1.1 e.1.2 (e.2.1 / e.2.2) e.2.2 := by
    subst hkeyed hxbs hybs hminX hmaxX hminY hmaxY
    rfl
  refine ⟨compute_heatmap_eq xs ys vs xc yc vc g hys hvs hne hg, ?_, ?_, hcells, ?_, ?_, ?_, ?_⟩
  · rw [hxbs]
    exact div_ne_zero (sub_ne_zero.mpr (ne_of_gt hxlt)) hgq
  · rw [hybs]
    exact div_ne_zero (sub_ne_zero.mpr (ne_of_gt hylt)) hgq
  · intro cell hc
    rw [hcells] at hc
    obtain ⟨e, he, rfl⟩ := List.mem_map.mp hc
    obtain ⟨hcount, hsum, hpos⟩ := agg_mem_spec keyed e he
    have hkey : ((HeatCell.mk e.1.1 e.1.2 (e.2.1 / e.2.2) e.2.2).x_index,
                 (HeatCell.mk e.1.1 e.1.2 (e.2.1 / e.2.2) e.2.2).y_index) = e.1 := rfl
    refine ⟨hpos, ?_, ?_⟩
    · rw [hkey]
      exact hcount
    · rw [hkey]
      show e.2.1 / (e.2.2 : ℚ) = _
      rw [hsum, hcount]
  · rw [hcells, List.length_map]
    calc (aggregateCells keyed).length ≤ keyed.length := agg_length_le keyed
      _ = xs.length := by
          rw [hkeyed, List.length_map, List.length_zip, List.length_zip, hys, hvs]
          simp
  · rw [hcells, List.length_map]
    have hnd := agg_keys_nodup keyed
    have hbound : ∀ x ∈ (aggregateCells keyed).map Prod.fst, x.1 < g ∧ x.2 < g := by
      intro x hx
      have hx2 := agg_keys_subset keyed x hx
      rw [hkeyed, List.map_map] at hx2
      obtain ⟨t, -, rfl⟩ := List.mem_map.mp hx2
      exact ⟨binClip_lt g minX xbs t.1 hg, binClip_lt g minY ybs t.2.1 hg⟩
    have hsubfin : ((aggregateCells keyed).map Prod.fst).toFinset
        ⊆ Finset.range g ×ˢ Finset.range g := by
      intro x hx
      rw [List.mem_toFinset] at hx
      obtain ⟨h1, h2⟩ := hbound x hx
      rw [Finset.mem_product, Finset.mem_range, Finset.mem_range]
      exact ⟨h1, h2⟩
    have hcard := Finset.card_le_card hsubfin
    simp only [List.toFinset_card_of_nodup hnd, Finset.card_product,
        Finset.card_range] at hcard
    calc (aggregateCells keyed).length
        = ((aggregateCells keyed).map Prod.fst).length := (List.length_map _ _).symm
      _ ≤ g * g := hcard
  · intro lo bs q hbs
    unfold binClip
    rw [if_neg hbs]

/-- Witness for C9: two points on a 2×2 grid occupy two distinct cells with
    count 1 and their own value as average. -/
theorem claim_C9_witness :
    compute_heatmap [Flt.val 0, Flt.val 2] [Flt.val 0, Flt.val 3] [Flt.val 5, Flt.val 9]
        "x" "y" "v" 2
      = some (heatmapOn [0, 2] [0, 3] [5, 9] "x" "y" "v" 2)
    ∧ (heatmapOn [0, 2] [0, 3] [5, 9] "x" "y" "v" 2).cells
      = [⟨0, 0, 5, 1⟩, ⟨1, 1, 9, 1⟩] := by
  have h := claim_C9_heatmap_cells [0, 2] [0, 3] [5, 9] "x" "y" "v" 2
    [((0, 0), 5), ((1, 1), 9)] 0 2 0 3 1 (3/2)
    (by decide) (by decide) (by decide) (by decide) (by decide) (by decide)
    (by decide) (by decide) (by decide) (by decide) (by decide) (by decide)
    (by decide)
  refine ⟨h.1, ?_⟩
  rw [h.2.2.2.1]
  decide

/-- **C6** — When all x values (or all y values) of a heatmap input are
    equal, i.e. the range on that axis is zero, computeHeatmap does not
    divide by zero (the zero bin size makes the `0.0/0.0 = NaN → int64 →
    clip` chain land every point in bin 0) and treats that axis as a single
    bin, still returning a well-formed non-empty result for non-empty
    input. -/
theorem claim_C6_zero_range (ys vs xs2 vs2 : List ℚ) (c : ℚ) (n g : Nat)
    (xc yc vc : String)
    (hn : n ≠ 0) (hg : g ≠ 0)
    (hys : ys.length = n) (hvs : vs.length = n)
    (hxs2 : xs2.length = n) (hvs2 : vs2.length = n) :
    (compute_heatmap ((List.replicate n c).map Flt.val) (ys.map Flt.val) (vs.map Flt.val)
        xc yc vc g
      = some (heatmapOn (List.replicate n c) ys vs xc yc vc g)
      ∧ (heatmapOn (List.replicate n c) ys vs xc yc vc g).x_bin_size = 0
      ∧ (heatmapOn (List.replicate n c) ys vs xc yc vc g).cells ≠ []
      ∧ ∀ cell ∈ (heatmapOn (List.replicate n c) ys vs xc yc vc g).cells, cell.x_index = 0)
    ∧
    (compute_heatmap (xs2.map Flt.val) ((List.replicate n c).map Flt.val) (vs2.map Flt.val)
        xc yc vc g
      = some (heatmapOn xs2 (List.replicate n c) vs2 xc yc vc g)
      ∧ (heatmapOn xs2 (List.replicate n c) vs2 xc yc vc g).y_bin_size = 0
      ∧ (heatmapOn xs2 (List.replicate n c) vs2 xc yc vc g).cells ≠ []
      ∧ ∀ cell ∈ (heatmapOn xs2 (List.replicate n c) vs2 xc yc vc g).cells,
          cell.y_index = 0) := by
  have hrl : (List.replicate n c).length = n := List.length_replicate n c
  have hrne : List.replicate n c ≠ [] := by
    intro h
    have := congrArg List.length h
    rw [hrl] at this
    exact hn this
  have hminr := listMinQ_replicate n c hn
  have hmaxr := listMaxQ_replicate n c hn
  have hbs0 : (listMaxQ (List.replicate n c) - listMinQ (List.replicate n c)) / (g : ℚ) = 0 := by
    rw [hminr, hmaxr, sub_self, zero_div]
  constructor
  · have hne2 : xs2.length = n := hxs2
    have heq := compute_heatmap_eq (List.replicate n c) ys vs xc yc vc g
      (by rw [hys, hrl]) (by rw [hvs, hrl]) hrne hg
    refine ⟨heq, ?_, ?_, ?_⟩
    · show (listMaxQ (List.replicate n c) - listMinQ (List.replicate n c)) / (g : ℚ) = 0
      exact hbs0
    · show ((aggregateCells _).map _) ≠ []
      have hkne : ((List.replicate n c).zip (ys.zip vs)).map (fun t =>
          ((binClip g (listMinQ (List.replicate n c))
              ((listMaxQ (List.replicate n c) - listMinQ (List.replicate n c)) / (g : ℚ)) t.1,
            binClip g (listMinQ ys) ((listMaxQ ys - listMinQ ys) / (g : ℚ)) t.2.1),
           t.2.2)) ≠ [] := by
        intro h
        have hl := congrArg List.length h
        rw [List.length_map, List.length_zip, List.length_zip, hrl, hys, hvs] at hl
        simp at hl
        exact hn hl
      intro h
      have h2 := congrArg List.length h
      rw [List.length_map] at h2
      exact agg_ne_nil _ hkne (List.length_eq_zero.mp h2)
    · intro cell hc
      obtain ⟨e, he, rfl⟩ := List.mem_map.mp hc
      have hx2 := agg_keys_subset _ e.1 (List.mem_map_of_mem Prod.fst he)
      rw [List.map_map] at hx2
      obtain ⟨t, -, hkey⟩ := List.mem_map.mp hx2
      show e.1.1 = 0
      rw [← hkey]
      show binClip g (listMinQ (List.replicate n c))
          ((listMaxQ (List.replicate n c) - listMinQ (List.replicate n c)) / (g : ℚ)) t.1 = 0
      rw [hbs0]
      exact binClip_zero_bs g _ t.1
  · have heq := compute_heatmap_eq xs2 (List.replicate n c) vs2 xc yc vc g
      (by rw [hrl, hxs2]) (by rw [hvs2, hxs2]) (by
        intro h
        have := congrArg List.length h
        rw [hxs2] at this
        exact hn this) hg
    refine ⟨heq, ?_, ?_, ?_⟩
    · show (listMaxQ (List.replicate n c) - listMinQ (List.replicate n c)) / (g : ℚ) = 0
      exact hbs0
    · show ((aggregateCells _).map _) ≠ []
      have hkne : (xs2.zip ((List.replicate n c).zip vs2)).map (fun t =>
          ((binClip g (listMinQ xs2) ((listMaxQ xs2 - listMinQ xs2) / (g : ℚ)) t.1,
            binClip g (listMinQ (List.replicate n c))
              ((listMaxQ (List.replicate n c) - listMinQ (List.replicate n c)) / (g : ℚ)) t.2.1),
           t.2.2)) ≠ [] := by
        intro h
        have hl := congrArg List.length h
        rw [List.length_map, List.length_zip, List.length_zip, hrl, hxs2, hvs2] at hl
        simp at hl
        exact hn hl
      intro h
      have h2 := congrArg List.length h
      rw [List.length_map] at h2
      exact agg_ne_nil _ hkne (List.length_eq_zero.mp h2)
    · intro cell hc
      obtain ⟨e, he, rfl⟩ := List.mem_map.mp hc
      have hx2 := agg_keys_subset _ e.1 (List.mem_map_of_mem Prod.fst he)
      rw [List.map_map] at hx2
      obtain ⟨t, -, hkey⟩ := List.mem_map.mp hx2
      show e.1.2 = 0
      rw [← hkey]
      show binClip g (listMinQ (List.replicate n c))
          ((listMaxQ (List.replicate n c) - listMinQ (List.replicate n c)) / (g : ℚ)) t.2.1 = 0
      rw [hbs0]
      exact binClip_zero_bs g _ t.2.1

/-- Witness for C6: two points sharing x = 1 on a 2×2 grid — a single x bin,
    nonempty well-formed result. -/
theorem claim_C6_witness :
    compute_heatmap [Flt.val 1, Flt.val 1] [Flt.val 0, Flt.val 3] [Flt.val 5, Flt.val 9]
        "x" "y" "v" 2
      = some (heatmapOn [1, 1] [0, 3] [5, 9] "x" "y" "v" 2)
    ∧ (heatmapOn [1, 1] [0, 3] [5, 9] "x" "y" "v" 2).x_bin_size = 0
    ∧ (heatmapOn [1, 1] [0, 3] [5, 9] "x" "y" "v" 2).cells
        = [⟨0, 0, 5, 1⟩, ⟨0, 1, 9, 1⟩] := by
  have h := (claim_C6_zero_range [0, 3] [5, 9] [0, 3] [5, 9] 1 2 2 "x" "y" "v"
    (by decide) (by decide) (by decide) (by decide) (by decide) (by decide)).1
  have hrep : List.replicate 2 (1 : ℚ) = [1, 1] := by decide
  rw [hrep] at h
  exact ⟨h.1, h.2.1, by decide⟩

end GeoApp
